import Mathlib

/-!
# graphtyper: variant candidates and region splitting

A shallow embedding of

* `gyper::VariantCandidate` (`src/typer/variant_candidate.cpp`): the
  transition/transversion classifier, `operator==`, `operator!=`, `operator<`
  and `VariantCandidateHash`;
* `add_region` and `get_regions` (`src/main.cpp`): clamping a requested region to
  its contig and splitting it into pieces of `REGION_SIZE`;
* `VariantCandidate::normalize`, over `Variant::normalize` as the specification
  describes it;
* `is_file`, `check_file_exists` and `check_file_exists_or_empty`
  (`src/utilities/system.cpp`).

Conventions. A `uint32_t` is a `Nat` and every place where the C++ truncates to 32
bits is an explicit reduction modulo `2 ^ 32` (`to_uint32`); a `long` is an `Int`, and
the one sum of `long`s that can leave the 64-bit range is wrapped by `to_long`; a
`std::size_t` is a `Nat` reduced `% 2 ^ 64`; a `char` is a `Char` whose value is the
signed value of its byte (`char_value`). A `std::vector` is a `List`. The `while` loop
of `add_region` is a structural recursion on a bound on the number of iterations and
returns `none` when the bound is exhausted.
-/

namespace gyper

/-! ## `std::vector` comparisons -/

/-- The loop of `std::equal(first1, last1, first2)`: elementwise comparison over the
first range. `std::vector::operator==` only calls it on ranges of equal size. -/
def std_equal {α : Type} (eq : α → α → Bool) : List α → List α → Bool
  | [], _ => true
  | _ :: _, [] => false
  | a :: as, b :: bs => eq a b && std_equal eq as bs

/-- The `operator==` of `std::vector`:
`x.size() == y.size() && std::equal(x.begin(), x.end(), y.begin())`. -/
def vector_eq {α : Type} (eq : α → α → Bool) (x y : List α) : Bool :=
  x.length == y.length && std_equal eq x y

/-- The algorithm `std::lexicographical_compare`, which is `operator<` of `std::vector`:
walk both ranges while neither is exhausted; the first position where one element is
smaller decides; otherwise the first range must be the one that ran out. -/
def lexicographical_compare {α : Type} (lt : α → α → Bool) : List α → List α → Bool
  | [], [] => false
  | [], _ :: _ => true
  | _ :: _, [] => false
  | a :: as, b :: bs =>
    if lt a b then true
    else if lt b a then false
    else lexicographical_compare lt as bs

/-- The built-in `==` on `char`. -/
def char_eq (a b : Char) : Bool := a == b

/-- The value of a `char`. A `char` is the `Char` of its byte, and `char` is signed on
the target (x86-64 Linux): the bytes `0x80` to `0xFF` have the values -128 to -1. A
`Char` with a code above 255 is not a `char`; it keeps its code. -/
def char_value (c : Char) : Int :=
  if c.toNat < 128 then (c.toNat : Int)
  else if c.toNat < 256 then (c.toNat : Int) - 256
  else (c.toNat : Int)

/-- The built-in `<` on `char`: comparison of the signed values. -/
def char_lt (a b : Char) : Bool := decide (char_value a < char_value b)

/-- The order of the built-in `<` on `char`, as a relation. -/
def signed_lt (a b : Char) : Prop := char_value a < char_value b

/-! ## `VariantCandidate` -/

/-- The two data members of `VariantCandidate` that the functions below read:
`uint32_t abs_pos` and `std::vector<std::vector<char>> seqs`. -/
structure VariantCandidate where
  abs_pos : Nat
  seqs : List (List Char)
deriving DecidableEq, Repr

namespace VariantCandidate

/-- The expression `seqs[i][0]`. It is only evaluated after the size checks, where
both indices are in range; the fall-back values are never read there. -/
def first_base (v : VariantCandidate) (i : Nat) : Char :=
  (v.seqs.getD i []).getD 0 'N'

/-- The member `VariantCandidate::is_transition_or_transversion`;
`return false` is the `int` value `0`. -/
def is_transition_or_transversion (v : VariantCandidate) : Int :=
  if v.seqs.length = 2 ∧ (v.seqs.getD 0 []).length = 1 ∧ (v.seqs.getD 1 []).length = 1 then
    if (v.first_base 0 = 'A' ∧ v.first_base 1 = 'G') ∨
       (v.first_base 0 = 'G' ∧ v.first_base 1 = 'A') ∨
       (v.first_base 0 = 'C' ∧ v.first_base 1 = 'T') ∨
       (v.first_base 0 = 'T' ∧ v.first_base 1 = 'C') then
      1 -- transition
    else
      2 -- transversion
  else
    0

/-- The member `VariantCandidate::operator==`:
`abs_pos == v.abs_pos && seqs == v.seqs`. -/
def operator_eq (a v : VariantCandidate) : Bool :=
  a.abs_pos == v.abs_pos && vector_eq (vector_eq char_eq) a.seqs v.seqs

/-- The member `VariantCandidate::operator!=`: `!(*this == b)`. -/
def operator_ne (a b : VariantCandidate) : Bool :=
  !(operator_eq a b)

/-- The member `VariantCandidate::operator<`:
`abs_pos < b.abs_pos || (abs_pos == b.abs_pos && seqs < b.seqs)`. -/
def operator_lt (a b : VariantCandidate) : Bool :=
  decide (a.abs_pos < b.abs_pos) ||
    (a.abs_pos == b.abs_pos &&
      lexicographical_compare (lexicographical_compare char_lt) a.seqs b.seqs)

end VariantCandidate

/-- The function object `VariantCandidateHash::operator()`. The two library hashes it
calls, `std::hash<uint32_t>` and `boost::hash_range` over the bases of one allele, are
parameters; their results are `std::size_t` values, so they are reduced modulo `2 ^ 64`
and so is every sum and shift. The result is `none` where `assert(v.seqs.size() == 2)`
fails. -/
def VariantCandidateHash (std_hash : Nat → Nat) (hash_range : List Char → Nat)
    (v : VariantCandidate) : Option Nat :=
  if v.seqs.length = 2 then
    let h1 := std_hash v.abs_pos % 2 ^ 64
    let h2 := hash_range (v.seqs.getD 0 []) % 2 ^ 64
    let h3 := (42 + hash_range (v.seqs.getD 1 []) % 2 ^ 64) % 2 ^ 64
    some (h1 ^^^ ((h2 <<< 1) % 2 ^ 64) ^^^ ((h3 + 0x9e3779b9) % 2 ^ 64))
  else
    none

/-- The function `hash_combine` of Boost 1.56 to 1.80 for a 64-bit `std::size_t`
(`hash_combine_impl` on `uint64_t`). It is library code, not part of the sources, and
serves only to exhibit two alleles with the same `hash_range`. -/
def boost_hash_combine (h k : Nat) : Nat :=
  let m := 0xc6a4a7935bd1e995
  let k1 := (k * m) % 2 ^ 64
  let k2 := k1 ^^^ (k1 >>> 47)
  let k3 := (k2 * m) % 2 ^ 64
  let h1 := h ^^^ k3
  let h2 := (h1 * m) % 2 ^ 64
  (h2 + 0xe6546b64) % 2 ^ 64

/-- The function `boost::hash_range` of Boost 1.56 to 1.80 over the chars of an allele:
the seed starts at 0 and every char is combined into it, the hash of a char being its
value converted to `std::size_t`. -/
def boost_hash_range (allele : List Char) : Nat :=
  allele.foldl (fun seed c => boost_hash_combine seed ((char_value c % 2 ^ 64).toNat)) 0

/-- A first allele of 32 bases; `boost_hash_range` gives it the same value as
`collision_allele_B`. -/
def collision_allele_A : List Char := "GTTCGGAGGTTCCTCAGGCGGCAGAGATGGTC".toList

/-- A second allele of 32 bases, different from `collision_allele_A`. -/
def collision_allele_B : List Char := "CGCGCGTAGTTGATCATCCGTAATCTTGCTTA".toList

/-! ## `GenomicRegion` and region splitting -/

/-- The members of `GenomicRegion` that `add_region` reads and writes: the contig name
and the two `uint32_t` ends of the half-open interval. -/
structure GenomicRegion where
  chr : String
  begin : Nat
  «end» : Nat
deriving DecidableEq, Repr

/-- The conversion `static_cast<uint32_t>(x)` of a `long`, and the implicit conversion
of a `long` assigned to a `uint32_t`. -/
def to_uint32 (x : Int) : Nat := (x % 4294967296).toNat

/-- The subtraction `a - b` of two `uint32_t`, which wraps around modulo `2 ^ 32`. -/
def sub_uint32 (a b : Nat) : Nat := to_uint32 ((a : Int) - (b : Int))

/-- The value that a `long` takes for the arithmetic result `x`: inside the 64-bit
range it is `x`, and a signed overflow wraps around modulo `2 ^ 64` (two's complement,
as the compiled code on x86-64 does). -/
def to_long (x : Int) : Int :=
  (x + 9223372036854775808) % 18446744073709551616 - 9223372036854775808

/-- The loop condition of `add_region`:
`static_cast<long>(region.end - region.begin) > (REGION_SIZE + REGION_SIZE / 10l)`,
the division being the truncating division of C++ and the sum a `long`. -/
def too_large (REGION_SIZE : Int) (region : GenomicRegion) : Prop :=
  (sub_uint32 region.«end» region.begin : Int) > to_long (REGION_SIZE + REGION_SIZE.tdiv 10)

instance (REGION_SIZE : Int) (region : GenomicRegion) :
    Decidable (too_large REGION_SIZE region) := by
  unfold too_large; infer_instance

/-- The `while` loop of `add_region` followed by the final `push_back`. The first
argument bounds the number of iterations of the loop body; `none` means that the
bound was reached with the loop condition still true. The sum
`new_region.begin + REGION_SIZE` is a `long` that is converted to `uint32_t`; as
`2 ^ 32` divides `2 ^ 64`, a wrap of the `long` does not change the converted value. -/
def add_region_loop (REGION_SIZE : Int) :
    Nat → GenomicRegion → List GenomicRegion → Option (List GenomicRegion)
  | 0, region, regions =>
    if too_large REGION_SIZE region then none
    else some (regions ++ [region])
  | fuel + 1, region, regions =>
    if too_large REGION_SIZE region then
      let new_region : GenomicRegion :=
        { region with «end» := to_uint32 ((region.begin : Int) + REGION_SIZE) }
      add_region_loop REGION_SIZE fuel { region with begin := new_region.«end» }
        (regions ++ [new_region])
    else some (regions ++ [region])

/-- The two assignments of `add_region` that bring the region inside a contig of
length `len`:
`region.begin = std::min(region.begin, static_cast<uint32_t>(len - 1))` and
`region.end = std::min(region.end, static_cast<uint32_t>(len))`. -/
def clamp_to_contig (len : Int) (region : GenomicRegion) : GenomicRegion :=
  { region with
    begin := min region.begin (to_uint32 (len - 1))
    «end» := min region.«end» (to_uint32 len) }

/-- The function `add_region` of `main.cpp`. The constructor
`GenomicRegion(std::string const &)` is the parameter `parse`; `contig2length` is the
lookup `find` of the `unordered_map`; `fuel` bounds the iterations of the loop. An
unknown contig leaves `regions` as it is (a warning is logged). -/
def add_region (parse : String → GenomicRegion) (fuel : Nat)
    (contig2length : String → Option Int) (regions : List GenomicRegion)
    (region_str : String) (REGION_SIZE : Int) : Option (List GenomicRegion) :=
  let region := parse region_str
  match contig2length region.chr with
  | none => some regions
  | some len => add_region_loop REGION_SIZE fuel (clamp_to_contig len region) regions

/-- How a function that may call `std::exit` ends. -/
inductive Outcome (α : Type) where
  | returned (value : α)
  | exited (status : Nat)
deriving DecidableEq, Repr

/-- The loop `while (std::getline(file_in, line)) add_region(...)` over the lines of
the region file. -/
def add_regions_of_lines (parse : String → GenomicRegion) (fuel : Nat)
    (contig2length : String → Option Int) (REGION_SIZE : Int) :
    List String → List GenomicRegion → Option (List GenomicRegion)
  | [], regions => some regions
  | line :: rest, regions =>
    match add_region parse fuel contig2length regions line REGION_SIZE with
    | none => none
    | some regions1 => add_regions_of_lines parse fuel contig2length REGION_SIZE rest regions1

/-- The function `get_regions` of `main.cpp`. `contig2length` is the table that
`get_contig_to_lengths(ref_fn + ".fai")` returns and `file_lines` are the lines that
`std::getline` reads from the file `opts_region_fn` (none when it cannot be opened).
`fuel` bounds the loop of every `add_region` call. -/
def get_regions (parse : String → GenomicRegion) (fuel : Nat)
    (contig2length : String → Option Int) (opts_region : String)
    (opts_region_fn : String) (file_lines : List String) (REGION_SIZE : Int) :
    Option (Outcome (List GenomicRegion)) :=
  let regions0 : List GenomicRegion := []
  match (if opts_region.length > 0 then
      add_region parse fuel contig2length regions0 opts_region REGION_SIZE
    else some regions0) with
  | none => none
  | some regions1 =>
    match (if opts_region_fn.length > 0 then
        add_regions_of_lines parse fuel contig2length REGION_SIZE file_lines regions1
      else some regions1) with
    | none => none
    | some regions2 =>
      if regions2.length = 0 then some (Outcome.exited 1)
      else some (Outcome.returned regions2)

/-! ## Vocabulary of the statements -/

/-- Two regions overlap when they lie on the same contig and their half-open
intervals `[begin, end)` share a position. -/
def overlap (r s : GenomicRegion) : Prop :=
  r.chr = s.chr ∧ max r.begin s.begin < min r.«end» s.«end»

instance (r s : GenomicRegion) : Decidable (overlap r s) := by
  unfold overlap; infer_instance

/-- The loop of `add_region` as a relation between the region on entry and the regions
it appends: when the loop condition fails the region itself is appended; when it holds
the piece `new_region` is appended and the loop goes on with the region whose `begin`
is the `end` of that piece. -/
inductive Split (REGION_SIZE : Int) : GenomicRegion → List GenomicRegion → Prop where
  | last (r : GenomicRegion) : ¬ too_large REGION_SIZE r → Split REGION_SIZE r [r]
  | step (r : GenomicRegion) (rest : List GenomicRegion) :
      too_large REGION_SIZE r →
      Split REGION_SIZE { r with begin := to_uint32 ((r.begin : Int) + REGION_SIZE) } rest →
      Split REGION_SIZE r
        ({ r with «end» := to_uint32 ((r.begin : Int) + REGION_SIZE) } :: rest)

/-- A region lies within a request: same contig, and its interval is a well-formed
part of the interval of the request. -/
def within (x q : GenomicRegion) : Prop :=
  x.chr = q.chr ∧ q.begin ≤ x.begin ∧ x.begin ≤ x.«end» ∧ x.«end» ≤ q.«end»

/-- The requests that `get_regions` passes to `add_region`, in order: the `--region`
option when it is not empty, then the lines of the region file when a file name is
given. -/
def requests (opts_region opts_region_fn : String) (file_lines : List String) :
    List String :=
  (if opts_region.length > 0 then [opts_region] else []) ++
    (if opts_region_fn.length > 0 then file_lines else [])

/-! ## Normalization -/

/-- The two data members of `Variant` that `VariantCandidate::normalize` copies in and
out: the position and the alleles. -/
structure Variant where
  abs_pos : Nat
  seqs : List (List Char)
deriving DecidableEq, Repr

/-- Modelled from the spec: the condition under which `Variant::normalize`, whose body
is not among the sources, trims one base from the shared suffix: "more than one base
remains in every allele and the trimmed bases are identical across alleles", the
trimmed base being the last one of each allele. Without an allele there is no base to
trim. -/
def shared_suffix_base (seqs : List (List Char)) : Bool :=
  match seqs with
  | [] => false
  | s :: rest =>
    seqs.all (fun a => decide (1 < a.length)) && rest.all (fun a => a.getLast? == s.getLast?)

/-- Modelled from the spec: the condition under which `Variant::normalize`, whose body
is not among the sources, trims one base from the shared prefix: "more than one base
remains in every allele and the trimmed bases are identical across alleles", the
trimmed base being the first one of each allele. -/
def shared_prefix_base (seqs : List (List Char)) : Bool :=
  match seqs with
  | [] => false
  | s :: rest =>
    seqs.all (fun a => decide (1 < a.length)) && rest.all (fun a => a.head? == s.head?)

/-- Modelled from the spec: the loop of `Variant::normalize`, whose body is not among
the sources: it "repeatedly trims one base from the shared prefix/suffix of all alleles
while more than one base remains in every allele and the trimmed bases are identical
across alleles; adjusts `abs_pos` accordingly". A trimmed suffix base leaves the
position as it is, a trimmed prefix base moves it forward by one. The first argument
bounds the number of trims. -/
def Variant.normalize_loop : Nat → Variant → Variant
  | 0, v => v
  | fuel + 1, v =>
    if shared_suffix_base v.seqs then
      Variant.normalize_loop fuel { v with seqs := v.seqs.map List.dropLast }
    else if shared_prefix_base v.seqs then
      Variant.normalize_loop fuel { abs_pos := v.abs_pos + 1, seqs := v.seqs.map List.tail }
    else v

/-- Modelled from the spec: the member `Variant::normalize`, whose body is not among
the sources. Every trim shortens the first allele, which keeps at least one base, so
the length of the first allele bounds the number of trims. -/
def Variant.normalize (v : Variant) : Variant :=
  Variant.normalize_loop (v.seqs.headD []).length v

/-- The member `VariantCandidate::normalize`: the position and the alleles are put in a
`Variant`, `Variant::normalize` runs on it, and both are taken back. -/
def VariantCandidate.normalize (v : VariantCandidate) : VariantCandidate :=
  let new_var : Variant := { abs_pos := v.abs_pos, seqs := v.seqs }
  let new_var := new_var.normalize
  { abs_pos := new_var.abs_pos, seqs := new_var.seqs }

/-! ## Checks on input files -/

/-- The macro `S_ISREG` of `<sys/stat.h>` on an `st_mode`, with the values of Linux:
the file type bits `0170000` are `0100000`. -/
def S_ISREG (st_mode : Nat) : Bool := st_mode &&& 0o170000 == 0o100000

/-- The macro `S_ISLNK` of `<sys/stat.h>` on an `st_mode`, with the values of Linux:
the file type bits `0170000` are `0120000`. -/
def S_ISLNK (st_mode : Nat) : Bool := st_mode &&& 0o170000 == 0o120000

/-- The function `is_file` of `system.cpp`. The file system is the parameter `stat`:
the `st_mode` that the system call `stat` stores for a path when it returns 0, and
`none` when it fails. -/
def is_file (stat : String → Option Nat) (filename : String) : Bool :=
  match stat filename with
  | some st_mode => S_ISREG st_mode || S_ISLNK st_mode
  | none => false

/-- The function `check_file_exists` of `system.cpp`: an error is logged and the
process exits with status 1 when `filename.size() == 0 || !is_file(filename)`. -/
def check_file_exists (stat : String → Option Nat) (filename : String) : Outcome Unit :=
  if filename.length = 0 ∨ is_file stat filename = false then Outcome.exited 1
  else Outcome.returned ()

/-- The function `check_file_exists_or_empty` of `system.cpp`: an error is logged and
the process exits with status 1 when `filename.size() > 0 && !is_file(filename)`. -/
def check_file_exists_or_empty (stat : String → Option Nat) (filename : String) :
    Outcome Unit :=
  if filename.length > 0 ∧ is_file stat filename = false then Outcome.exited 1
  else Outcome.returned ()

/-- A file system for the examples: the regular file `variants.vcf.gz`, the directory
`results`, and nothing else. -/
def example_stat : String → Option Nat :=
  fun path =>
    if path = "variants.vcf.gz" then some 0o100644
    else if path = "results" then some 0o040755
    else none

/-! ## Inputs of the examples -/

/-- A reference index with the single contig `chr1` of length 1,000,000. -/
def example_contigs : String → Option Int :=
  fun chr => if chr = "chr1" then some 1000000 else none

/-- The regions that the region strings of the examples stand for. -/
def example_parse : String → GenomicRegion :=
  fun region_str =>
    if region_str = "chr1:1000-121000" then ⟨"chr1", 1000, 121000⟩
    else if region_str = "chr1:0-100" then ⟨"chr1", 0, 100⟩
    else if region_str = "chr1:50-150" then ⟨"chr1", 50, 150⟩
    else if region_str = "chr1:100-200" then ⟨"chr1", 100, 200⟩
    else ⟨region_str, 0, 0⟩

/-! ## Lemmas on the vector comparisons -/

theorem std_equal_iff {α : Type} (eq : α → α → Bool)
    (heq : ∀ a b, eq a b = true ↔ a = b) :
    ∀ x y : List α, x.length = y.length → (std_equal eq x y = true ↔ x = y)
  | [], [], _ => by simp [std_equal]
  | [], _ :: _, h => by simp at h
  | _ :: _, [], h => by simp at h
  | a :: as, b :: bs, h => by
    have hl : as.length = bs.length := by simpa using h
    simp [std_equal, heq, std_equal_iff eq heq as bs hl]

theorem vector_eq_iff {α : Type} (eq : α → α → Bool)
    (heq : ∀ a b, eq a b = true ↔ a = b) (x y : List α) :
    vector_eq eq x y = true ↔ x = y := by
  unfold vector_eq
  constructor
  · intro h
    simp only [Bool.and_eq_true, beq_iff_eq] at h
    exact (std_equal_iff eq heq x y h.1).1 h.2
  · rintro rfl
    simp [(std_equal_iff eq heq x x rfl).2 rfl]

theorem char_eq_iff (a b : Char) : char_eq a b = true ↔ a = b := by
  simp [char_eq]

theorem char_lt_iff (a b : Char) : char_lt a b = true ↔ signed_lt a b := by
  simp [char_lt, signed_lt]

theorem char_value_injective (a b : Char) (h : char_value a = char_value b) : a = b := by
  have hn : a.toNat = b.toNat := by
    unfold char_value at h
    split at h <;> split at h <;> (try split at h) <;> (try split at h) <;> omega
  apply Char.ext
  apply UInt32.ext
  exact hn

theorem signed_lt_strict_total : IsStrictTotalOrder Char signed_lt :=
  { irrefl := fun a h => lt_irrefl (char_value a) h
    trans := fun _ _ _ h1 h2 => lt_trans h1 h2
    trichotomous := fun a b => by
      rcases lt_trichotomy (char_value a) (char_value b) with h | h | h
      · exact Or.inl h
      · exact Or.inr (Or.inl (char_value_injective a b h))
      · exact Or.inr (Or.inr h) }

theorem signed_lt_iff_of_ascii (a b : Char) (ha : a.toNat < 128) (hb : b.toNat < 128) :
    signed_lt a b ↔ a < b := by
  unfold signed_lt char_value
  rw [if_pos ha, if_pos hb, Char.lt_iff_val_lt_val]
  show _ ↔ a.val.toNat < b.val.toNat
  simp only [Char.toNat]
  omega

theorem lex_cons_cons_iff {α : Type} (r : α → α → Prop) (a b : α) (as bs : List α) :
    List.Lex r (a :: as) (b :: bs) ↔ r a b ∨ (a = b ∧ List.Lex r as bs) := by
  constructor
  · intro h
    cases h with
    | cons h => exact Or.inr ⟨rfl, h⟩
    | rel h => exact Or.inl h
  · rintro (h | ⟨rfl, h⟩)
    · exact List.Lex.rel h
    · exact List.Lex.cons h

theorem lex_congr {α : Type} (r1 r2 : α → α → Prop) :
    ∀ x y : List α, (∀ a ∈ x, ∀ b ∈ y, (r1 a b ↔ r2 a b)) →
      (List.Lex r1 x y ↔ List.Lex r2 x y)
  | [], [], _ => ⟨fun h => (nomatch h), fun h => (nomatch h)⟩
  | [], _ :: _, _ => ⟨fun _ => List.Lex.nil, fun _ => List.Lex.nil⟩
  | _ :: _, [], _ => ⟨fun h => (nomatch h), fun h => (nomatch h)⟩
  | a :: as, b :: bs, h => by
    rw [lex_cons_cons_iff, lex_cons_cons_iff,
      h a (List.mem_cons_self a as) b (List.mem_cons_self b bs),
      lex_congr r1 r2 as bs (fun c hc d hd =>
        h c (List.mem_cons_of_mem a hc) d (List.mem_cons_of_mem b hd))]

theorem lexicographical_compare_iff {α : Type} (lt : α → α → Bool) (r : α → α → Prop)
    [IsStrictTotalOrder α r] (hlt : ∀ a b, lt a b = true ↔ r a b) :
    ∀ x y : List α, lexicographical_compare lt x y = true ↔ List.Lex r x y
  | [], [] => by simp [lexicographical_compare]
  | [], _ :: _ => by simp [lexicographical_compare, List.Lex.nil]
  | _ :: _, [] => by simp [lexicographical_compare]
  | a :: as, b :: bs => by
    have ih := lexicographical_compare_iff lt r hlt as bs
    unfold lexicographical_compare
    by_cases hab : r a b
    · simp [(hlt a b).2 hab, List.Lex.rel hab]
    · have hab' : lt a b = false := by
        cases h : lt a b
        · rfl
        · exact absurd ((hlt a b).1 h) hab
      by_cases hba : r b a
      · simp only [hab', (hlt b a).2 hba]
        simp only [Bool.false_eq_true, if_false, if_true, false_iff]
        intro h
        cases h with
        | cons h => exact irrefl_of r a hba
        | rel h => exact hab h
      · have hba' : lt b a = false := by
          cases h : lt b a
          · rfl
          · exact absurd ((hlt b a).1 h) hba
        have hEq : a = b := by
          rcases trichotomous_of r a b with h | h | h
          · exact absurd h hab
          · exact h
          · exact absurd h hba
        subst hEq
        simp only [hab', Bool.false_eq_true, if_false, ih]
        exact (List.Lex.cons_iff).symm

/-! ## Lemmas on `VariantCandidate` -/

theorem operator_eq_iff (a b : VariantCandidate) :
    VariantCandidate.operator_eq a b = true ↔ a.abs_pos = b.abs_pos ∧ a.seqs = b.seqs := by
  unfold VariantCandidate.operator_eq
  rw [Bool.and_eq_true, beq_iff_eq,
    vector_eq_iff (vector_eq char_eq) (vector_eq_iff char_eq char_eq_iff)]

theorem allele_lt_iff (x y : List Char) :
    lexicographical_compare char_lt x y = true ↔ List.Lex signed_lt x y :=
  haveI := signed_lt_strict_total
  lexicographical_compare_iff char_lt signed_lt char_lt_iff x y

theorem operator_lt_iff (a b : VariantCandidate) :
    VariantCandidate.operator_lt a b = true ↔
      a.abs_pos < b.abs_pos ∨
        (a.abs_pos = b.abs_pos ∧ List.Lex (List.Lex signed_lt) a.seqs b.seqs) := by
  haveI := signed_lt_strict_total
  unfold VariantCandidate.operator_lt
  rw [Bool.or_eq_true, Bool.and_eq_true, beq_iff_eq, decide_eq_true_iff,
    lexicographical_compare_iff (lexicographical_compare char_lt) (List.Lex signed_lt)
      allele_lt_iff]

theorem seqs_lex_irrefl (x : List (List Char)) : ¬ List.Lex (List.Lex signed_lt) x x :=
  haveI := signed_lt_strict_total
  irrefl_of (List.Lex (List.Lex signed_lt)) x

theorem seqs_lex_trans {x y z : List (List Char)} (h1 : List.Lex (List.Lex signed_lt) x y)
    (h2 : List.Lex (List.Lex signed_lt) y z) : List.Lex (List.Lex signed_lt) x z :=
  haveI := signed_lt_strict_total
  trans_of (List.Lex (List.Lex signed_lt)) h1 h2

theorem seqs_lex_trichotomy (x y : List (List Char)) :
    List.Lex (List.Lex signed_lt) x y ∨ x = y ∨ List.Lex (List.Lex signed_lt) y x :=
  haveI := signed_lt_strict_total
  trichotomous_of (List.Lex (List.Lex signed_lt)) x y

theorem operator_lt_ascii (a b : VariantCandidate)
    (hascii : ∀ s ∈ a.seqs ++ b.seqs, ∀ c ∈ s, c.toNat < 128) :
    List.Lex (List.Lex signed_lt) a.seqs b.seqs ↔
      List.Lex (List.Lex (· < ·)) a.seqs b.seqs := by
  apply lex_congr
  intro s hs t ht
  apply lex_congr
  intro c hc d hd
  exact signed_lt_iff_of_ascii c d
    (hascii s (List.mem_append_left _ hs) c hc) (hascii t (List.mem_append_right _ ht) d hd)

/-! ## Classification of single-base substitutions -/

/-- C1: for a candidate with exactly two alleles, each a single base, the result of
`is_transition_or_transversion` is 1 when the ordered pair of bases is (A,G), (G,A),
(C,T) or (T,C), and 2 for every other pair of bases. -/
theorem is_transition_or_transversion_two_single_bases (v : VariantCandidate)
    (x y : Char) (hv : v.seqs = [[x], [y]]) :
    ((x, y) ∈ [('A', 'G'), ('G', 'A'), ('C', 'T'), ('T', 'C')] →
        v.is_transition_or_transversion = 1) ∧
      ((x, y) ∉ [('A', 'G'), ('G', 'A'), ('C', 'T'), ('T', 'C')] →
        v.is_transition_or_transversion = 2) := by
  have h0 : v.first_base 0 = x := by simp [VariantCandidate.first_base, hv]
  have h1 : v.first_base 1 = y := by simp [VariantCandidate.first_base, hv]
  have hg : v.seqs.length = 2 ∧ (v.seqs.getD 0 []).length = 1 ∧
      (v.seqs.getD 1 []).length = 1 := by simp [hv]
  unfold VariantCandidate.is_transition_or_transversion
  rw [if_pos hg, h0, h1]
  simp only [List.mem_cons, Prod.mk.injEq, List.mem_singleton, List.not_mem_nil, or_false]
  constructor
  · intro h
    rw [if_pos h]
  · intro h
    rw [if_neg h]

/-- The alleles (C,T) of scenario A are a transition. -/
theorem is_transition_or_transversion_C_T :
    (VariantCandidate.mk 3 [['C'], ['T']]).is_transition_or_transversion = 1 :=
  (is_transition_or_transversion_two_single_bases ⟨3, [['C'], ['T']]⟩ 'C' 'T' rfl).1
    (by decide)

/-- C2: `is_transition_or_transversion` returns 0 exactly when the candidate is not a
pair of single-base alleles, and its only other results are 1 and 2. -/
theorem is_transition_or_transversion_eq_zero_iff (v : VariantCandidate) :
    (v.is_transition_or_transversion = 0 ↔
        ¬ (v.seqs.length = 2 ∧ ∀ s ∈ v.seqs, s.length = 1)) ∧
      (v.is_transition_or_transversion = 0 ∨ v.is_transition_or_transversion = 1 ∨
        v.is_transition_or_transversion = 2) := by
  have hg : (v.seqs.length = 2 ∧ (v.seqs.getD 0 []).length = 1 ∧
      (v.seqs.getD 1 []).length = 1) ↔ (v.seqs.length = 2 ∧ ∀ s ∈ v.seqs, s.length = 1) := by
    rcases v with ⟨p, seqs⟩
    match seqs with
    | [] => simp
    | [a] => simp
    | [a, b] => simp
    | a :: b :: c :: rest => simp
  unfold VariantCandidate.is_transition_or_transversion
  rw [← hg]
  constructor
  · constructor
    · intro h hc
      rw [if_pos hc] at h
      split at h <;> simp at h
    · intro h
      rw [if_neg h]
  · split
    · split
      · exact Or.inr (Or.inl rfl)
      · exact Or.inr (Or.inr rfl)
    · exact Or.inl rfl

/-! ## Equality and order of candidates -/

/-- C3: `a == b` holds exactly when the positions are equal and the allele lists are
equal, and `a != b` holds exactly when `a == b` does not. -/
theorem operator_eq_iff_fields_eq (a b : VariantCandidate) :
    (VariantCandidate.operator_eq a b = true ↔ a.abs_pos = b.abs_pos ∧ a.seqs = b.seqs) ∧
      (VariantCandidate.operator_ne a b = true ↔
        ¬ (VariantCandidate.operator_eq a b = true)) := by
  refine ⟨operator_eq_iff a b, ?_⟩
  unfold VariantCandidate.operator_ne
  simp

/-- C4, as stated, fails: at equal positions, the allele of the single byte `0xC8` is
smaller than the allele `A` for `operator<`, because `char` is signed and the byte is the
value -56; as byte strings, `A` (`0x41`) is the smaller one. -/
theorem operator_lt_not_byte_order :
    VariantCandidate.operator_lt ⟨5, [[Char.ofNat 200]]⟩ ⟨5, [['A']]⟩ = true ∧
      VariantCandidate.operator_lt ⟨5, [['A']]⟩ ⟨5, [[Char.ofNat 200]]⟩ = false ∧
      (Char.ofNat 200).toNat = 0xC8 ∧ char_value (Char.ofNat 200) = -56 ∧
      ¬ ((5 : Nat) < 5 ∨
        ((5 : Nat) = 5 ∧
          List.Lex (List.Lex (fun x y : Char => x < y)) [[Char.ofNat 200]] [['A']])) ∧
      List.Lex (List.Lex (fun x y : Char => x < y)) [['A']] [[Char.ofNat 200]] := by
  refine ⟨by decide, by decide, by decide, by decide, by decide, by decide⟩

/-- C4, amended: `a < b` holds exactly when `(a.abs_pos, a.seqs)` is lexicographically
smaller than `(b.abs_pos, b.seqs)`: the position is smaller, or the positions are equal
and the allele list of `a` is lexicographically smaller, allele by allele, each allele
compared char by char by the signed value of the char. When every char of the alleles
of `a` and `b` is below `0x80`, this is the order of the alleles as byte strings. -/
theorem operator_lt_iff_lex (a b : VariantCandidate) :
    (VariantCandidate.operator_lt a b = true ↔
        a.abs_pos < b.abs_pos ∨
          (a.abs_pos = b.abs_pos ∧ List.Lex (List.Lex signed_lt) a.seqs b.seqs)) ∧
      (VariantCandidate.operator_lt a b = true ↔
        Prod.Lex (· < ·) (List.Lex (List.Lex signed_lt))
          (a.abs_pos, a.seqs) (b.abs_pos, b.seqs)) ∧
      ((∀ s ∈ a.seqs ++ b.seqs, ∀ c ∈ s, c.toNat < 128) →
        (VariantCandidate.operator_lt a b = true ↔
          a.abs_pos < b.abs_pos ∨
            (a.abs_pos = b.abs_pos ∧ List.Lex (List.Lex (· < ·)) a.seqs b.seqs))) := by
  refine ⟨operator_lt_iff a b, ?_, ?_⟩
  · rw [operator_lt_iff, Prod.lex_def]
  · intro hascii
    rw [operator_lt_iff, operator_lt_ascii a b hascii]

/-- C5: `operator<` is irreflexive and transitive, and of `a < b`, `a == b`, `b < a`
exactly one holds. -/
theorem operator_lt_strict_total_order :
    (∀ a : VariantCandidate, VariantCandidate.operator_lt a a = false) ∧
      (∀ a b c : VariantCandidate, VariantCandidate.operator_lt a b = true →
        VariantCandidate.operator_lt b c = true → VariantCandidate.operator_lt a c = true) ∧
      (∀ a b : VariantCandidate,
        (VariantCandidate.operator_lt a b = true ∧ VariantCandidate.operator_eq a b = false ∧
            VariantCandidate.operator_lt b a = false) ∨
          (VariantCandidate.operator_lt a b = false ∧ VariantCandidate.operator_eq a b = true ∧
            VariantCandidate.operator_lt b a = false) ∨
          (VariantCandidate.operator_lt a b = false ∧ VariantCandidate.operator_eq a b = false ∧
            VariantCandidate.operator_lt b a = true)) := by
  refine ⟨?_, ?_, ?_⟩
  · intro a
    rw [← Bool.not_eq_true, operator_lt_iff]
    rintro (h | ⟨_, h⟩)
    · exact lt_irrefl _ h
    · exact seqs_lex_irrefl _ h
  · intro a b c hab hbc
    rw [operator_lt_iff] at hab hbc ⊢
    rcases hab with h1 | ⟨e1, l1⟩ <;> rcases hbc with h2 | ⟨e2, l2⟩
    · exact Or.inl (lt_trans h1 h2)
    · exact Or.inl (e2 ▸ h1)
    · exact Or.inl (e1 ▸ h2)
    · exact Or.inr ⟨e1.trans e2, seqs_lex_trans l1 l2⟩
  · intro a b
    simp only [← Bool.not_eq_true, operator_lt_iff, operator_eq_iff]
    rcases lt_trichotomy a.abs_pos b.abs_pos with hp | hp | hp
    · refine Or.inl ⟨Or.inl hp, ?_, ?_⟩
      · rintro ⟨h, _⟩
        omega
      · rintro (h | ⟨h, _⟩) <;> omega
    · rcases seqs_lex_trichotomy a.seqs b.seqs with hs | hs | hs
      · refine Or.inl ⟨Or.inr ⟨hp, hs⟩, ?_, ?_⟩
        · rintro ⟨_, h⟩
          exact seqs_lex_irrefl _ (h ▸ hs)
        · rintro (h | ⟨_, h⟩)
          · omega
          · exact seqs_lex_irrefl _ (seqs_lex_trans hs h)
      · refine Or.inr (Or.inl ⟨?_, ⟨hp, hs⟩, ?_⟩)
        · rintro (h | ⟨_, h⟩)
          · omega
          · exact seqs_lex_irrefl _ (hs ▸ h)
        · rintro (h | ⟨_, h⟩)
          · omega
          · exact seqs_lex_irrefl _ (hs ▸ h)
      · refine Or.inr (Or.inr ⟨?_, ?_, Or.inr ⟨hp.symm, hs⟩⟩)
        · rintro (h | ⟨_, h⟩)
          · omega
          · exact seqs_lex_irrefl _ (seqs_lex_trans hs h)
        · rintro ⟨_, h⟩
          exact seqs_lex_irrefl _ (h ▸ hs)
    · refine Or.inr (Or.inr ⟨?_, ?_, Or.inl hp⟩)
      · rintro (h | ⟨h, _⟩) <;> omega
      · rintro ⟨h, _⟩
        omega

/-! ## The hash of a biallelic candidate -/

theorem hash_swap_eq_of_hash_range_eq (std_hash : Nat → Nat) (hash_range : List Char → Nat)
    (p : Nat) (A B : List Char) (h : hash_range A % 2 ^ 64 = hash_range B % 2 ^ 64) :
    VariantCandidateHash std_hash hash_range ⟨p, [A, B]⟩ =
      VariantCandidateHash std_hash hash_range ⟨p, [B, A]⟩ := by
  simp only [VariantCandidateHash, List.length_cons, List.length_nil, if_true,
    List.getD_cons_zero, List.getD_cons_succ, h]

theorem xor_mod_two_pow (x y j : Nat) :
    (x ^^^ y) % 2 ^ j = (x % 2 ^ j) ^^^ (y % 2 ^ j) := by
  apply Nat.eq_of_testBit_eq
  intro i
  simp only [Nat.testBit_mod_two_pow, Nat.testBit_xor]
  cases decide (i < j) <;> simp

theorem swap_mix_low_bits (a b C : Nat)
    (h : ((a <<< 1) % 2 ^ 64) ^^^ ((b + C) % 2 ^ 64) =
      ((b <<< 1) % 2 ^ 64) ^^^ ((a + C) % 2 ^ 64)) :
    ∀ k, k ≤ 64 → a % 2 ^ k = b % 2 ^ k
  | 0, _ => by simp [Nat.mod_one]
  | k + 1, hk => by
    have ih := swap_mix_low_bits a b C h k (by omega)
    have hd : 2 ^ (k + 1) ∣ 2 ^ 64 := Nat.pow_dvd_pow 2 hk
    have h1 := congrArg (fun n => n % 2 ^ (k + 1)) h
    simp only [xor_mod_two_pow, Nat.mod_mod_of_dvd _ hd, Nat.shiftLeft_eq, Nat.pow_one] at h1
    have h2 : ∀ x : Nat, x * 2 % 2 ^ (k + 1) = 2 * (x % 2 ^ k) := by
      intro x
      rw [Nat.pow_succ, Nat.mul_comm x 2, Nat.mul_comm (2 ^ k) 2, Nat.mul_mod_mul_left]
    rw [h2, h2, ih, Nat.xor_right_inj] at h1
    have h3 : a + C ≡ b + C [MOD 2 ^ (k + 1)] := h1.symm
    exact Nat.ModEq.add_right_cancel' C h3

theorem swap_mix_injective (a b : Nat) (ha : a < 2 ^ 64) (hb : b < 2 ^ 64)
    (h : ((a <<< 1) % 2 ^ 64) ^^^ (((42 + b) % 2 ^ 64 + 0x9e3779b9) % 2 ^ 64) =
      ((b <<< 1) % 2 ^ 64) ^^^ (((42 + a) % 2 ^ 64 + 0x9e3779b9) % 2 ^ 64)) : a = b := by
  have e : ∀ x : Nat,
      ((42 + x) % 2 ^ 64 + 0x9e3779b9) % 2 ^ 64 = (x + 2654435811) % 2 ^ 64 := by
    intro x
    omega
  rw [e, e] at h
  have hlow := swap_mix_low_bits a b 2654435811 h 64 (le_refl _)
  rwa [Nat.mod_eq_of_lt ha, Nat.mod_eq_of_lt hb] at hlow

theorem hash_swap_eq_iff (std_hash : Nat → Nat) (hash_range : List Char → Nat)
    (p : Nat) (A B : List Char) :
    VariantCandidateHash std_hash hash_range ⟨p, [A, B]⟩ =
        VariantCandidateHash std_hash hash_range ⟨p, [B, A]⟩ ↔
      hash_range A % 2 ^ 64 = hash_range B % 2 ^ 64 := by
  constructor
  · intro heq
    simp only [VariantCandidateHash, List.length_cons, List.length_nil, if_true,
      List.getD_cons_zero, List.getD_cons_succ, Option.some.injEq] at heq
    rw [Nat.xor_assoc, Nat.xor_assoc, Nat.xor_right_inj] at heq
    exact swap_mix_injective _ _ (Nat.mod_lt _ (by norm_num)) (Nat.mod_lt _ (by norm_num)) heq
  · exact hash_swap_eq_of_hash_range_eq std_hash hash_range p A B

set_option maxRecDepth 100000 in
theorem boost_hash_range_collision :
    boost_hash_range collision_allele_A = 17882887808199378738 ∧
      boost_hash_range collision_allele_B = 17882887808199378738 := by
  decide

/-- C6, as stated, fails: the alleles `GTTCGGAGGTTCCTCAGGCGGCAGAGATGGTC` and
`CGCGCGTAGTTGATCATCCGTAATCTTGCTTA` are different and have the same `hash_range` in
Boost 1.56 to 1.80 (64-bit), `17882887808199378738`, so the candidate hashes the same in
both orders. For any pair of library hashes whatever, such a pair of alleles exists:
the values of `hash_range` are 64-bit and the alleles are infinitely many. -/
theorem hash_swap_not_always_different :
    collision_allele_A ≠ collision_allele_B ∧
      VariantCandidateHash id boost_hash_range ⟨3, [collision_allele_A, collision_allele_B]⟩ =
        VariantCandidateHash id boost_hash_range
          ⟨3, [collision_allele_B, collision_allele_A]⟩ ∧
      ¬ ∃ (std_hash : Nat → Nat) (hash_range : List Char → Nat),
        ∀ (p : Nat) (A B : List Char), A ≠ B →
          VariantCandidateHash std_hash hash_range ⟨p, [A, B]⟩ ≠
            VariantCandidateHash std_hash hash_range ⟨p, [B, A]⟩ := by
  refine ⟨by decide, ?_, ?_⟩
  · apply hash_swap_eq_of_hash_range_eq
    rw [boost_hash_range_collision.1, boost_hash_range_collision.2]
  · rintro ⟨std_hash, hash_range, hall⟩
    obtain ⟨A, B, hne, heq⟩ := Finite.exists_ne_map_eq_of_infinite
      (fun s : List Char =>
        (⟨hash_range s % 2 ^ 64, Nat.mod_lt _ (by norm_num)⟩ : Fin (2 ^ 64)))
    have hm : hash_range A % 2 ^ 64 = hash_range B % 2 ^ 64 := congrArg Fin.val heq
    exact hall 0 A B hne (hash_swap_eq_of_hash_range_eq std_hash hash_range 0 A B hm)

/-- C6, amended: swapping the two alleles of a biallelic candidate changes the hash
exactly when the two alleles have different `hash_range` values, as `std::size_t`; this
holds for every two alleles that `hash_range` separates, and two alleles with the same
`hash_range` value hash the same in both orders. -/
theorem hash_swap_ne_iff (std_hash : Nat → Nat) (hash_range : List Char → Nat)
    (p : Nat) (A B : List Char) :
    VariantCandidateHash std_hash hash_range ⟨p, [A, B]⟩ ≠
        VariantCandidateHash std_hash hash_range ⟨p, [B, A]⟩ ↔
      hash_range A % 2 ^ 64 ≠ hash_range B % 2 ^ 64 :=
  not_congr (hash_swap_eq_iff std_hash hash_range p A B)

/-! ## Lemmas on the loop of `add_region` -/

theorem too_large_iff (RS : Int) (hRS : 0 ≤ RS)
    (hmax : RS + RS / 10 ≤ 9223372036854775807) (r : GenomicRegion) :
    too_large RS r ↔ RS + RS / 10 < ((r.«end» : Int) - (r.begin : Int)) % 4294967296 := by
  unfold too_large sub_uint32 to_uint32 to_long
  rw [Int.tdiv_eq_ediv hRS (by decide)]
  omega

theorem add_region_loop_split (RS : Int) (hRS : 1 ≤ RS)
    (hmax : RS + RS / 10 ≤ 9223372036854775807) :
    ∀ (fuel : Nat) (r : GenomicRegion) (regions : List GenomicRegion),
      sub_uint32 r.«end» r.begin / RS.toNat ≤ fuel →
      ∃ app, add_region_loop RS fuel r regions = some (regions ++ app) ∧ Split RS r app
  | 0, r, regions, hf => by
    have hnot : ¬ too_large RS r := by
      intro h
      rw [too_large_iff RS (by omega) hmax] at h
      have hn : RS.toNat ≤ sub_uint32 r.«end» r.begin := by
        unfold sub_uint32 to_uint32
        omega
      have hpos := Nat.div_pos hn (by omega : 0 < RS.toNat)
      omega
    exact ⟨[r], by simp [add_region_loop, hnot], Split.last r hnot⟩
  | fuel + 1, r, regions, hf => by
    by_cases h : too_large RS r
    · have h1 := (too_large_iff RS (by omega) hmax r).1 h
      have hn : RS.toNat ≤ sub_uint32 r.«end» r.begin := by
        unfold sub_uint32 to_uint32
        omega
      have hd : sub_uint32 r.«end» (to_uint32 ((r.begin : Int) + RS)) =
          sub_uint32 r.«end» r.begin - RS.toNat := by
        unfold sub_uint32 to_uint32
        omega
      have hdiv := Nat.div_eq_sub_div (by omega : 0 < RS.toNat) hn
      obtain ⟨app, happ, hs⟩ := add_region_loop_split RS hRS hmax fuel
        { r with begin := to_uint32 ((r.begin : Int) + RS) }
        (regions ++ [{ r with «end» := to_uint32 ((r.begin : Int) + RS) }])
        (by
          show sub_uint32 r.«end» (to_uint32 ((r.begin : Int) + RS)) / RS.toNat ≤ fuel
          rw [hd]
          omega)
      refine ⟨{ r with «end» := to_uint32 ((r.begin : Int) + RS) } :: app, ?_,
        Split.step r app h hs⟩
      simp [add_region_loop, h, happ]
    · exact ⟨[r], by simp [add_region_loop, h], Split.last r h⟩

theorem add_region_loop_never_ends (RS : Int) (hneg : to_long (RS + RS.tdiv 10) < 0) :
    ∀ (fuel : Nat) (r : GenomicRegion) (regions : List GenomicRegion),
      add_region_loop RS fuel r regions = none
  | 0, r, regions => by
    have h : too_large RS r := by
      unfold too_large
      omega
    simp [add_region_loop, h]
  | fuel + 1, r, regions => by
    have h : too_large RS r := by
      unfold too_large
      omega
    simp only [add_region_loop, h, if_true]
    exact add_region_loop_never_ends RS hneg fuel _ _

theorem add_region_never_ends (parse : String → GenomicRegion)
    (contig2length : String → Option Int) (regions : List GenomicRegion)
    (region_str : String) (RS L : Int) (hneg : to_long (RS + RS.tdiv 10) < 0)
    (hknown : contig2length (parse region_str).chr = some L) (fuel : Nat) :
    add_region parse fuel contig2length regions region_str RS = none := by
  simp only [add_region, hknown]
  exact add_region_loop_never_ends RS hneg fuel _ _

theorem split_ne_nil {RS : Int} {r : GenomicRegion} {app : List GenomicRegion}
    (h : Split RS r app) : app ≠ [] := by
  cases h <;> simp

theorem split_head {RS : Int} {r : GenomicRegion} {app : List GenomicRegion}
    (h : Split RS r app) : ∃ first, app.head? = some first ∧ first.begin = r.begin := by
  cases h with
  | last _ hn => exact ⟨r, rfl, rfl⟩
  | step _ rest ht hs => exact ⟨_, rfl, rfl⟩

theorem split_last {RS : Int} {r : GenomicRegion} {app : List GenomicRegion}
    (h : Split RS r app) : ∃ l, app.getLast? = some l ∧ l.«end» = r.«end» := by
  induction h with
  | last r hn => exact ⟨r, rfl, rfl⟩
  | step r rest ht hs ih =>
    obtain ⟨l, hl, he⟩ := ih
    refine ⟨l, ?_, he⟩
    obtain ⟨y, ys, hy⟩ := List.exists_cons_of_ne_nil (split_ne_nil hs)
    rw [hy] at hl ⊢
    rw [List.getLast?_cons_cons]
    exact hl

theorem split_count {RS : Int} {r : GenomicRegion} {app : List GenomicRegion}
    (h : Split RS r app) :
    (¬ too_large RS r → app = [r]) ∧ (too_large RS r → 2 ≤ app.length) := by
  cases h with
  | last _ hn => exact ⟨fun _ => rfl, fun ht => absurd ht hn⟩
  | step _ rest ht hs =>
    refine ⟨fun hn => absurd ht hn, fun _ => ?_⟩
    obtain ⟨y, ys, hy⟩ := List.exists_cons_of_ne_nil (split_ne_nil hs)
    simp [hy]

theorem step_no_wrap (RS : Int) (hRS : 1 ≤ RS)
    (hmax : RS + RS / 10 ≤ 9223372036854775807) (r : GenomicRegion)
    (hle : r.begin ≤ r.«end») (hlt : r.«end» < 4294967296) (h : too_large RS r) :
    to_uint32 ((r.begin : Int) + RS) = r.begin + RS.toNat ∧ r.begin + RS.toNat < r.«end» := by
  rw [too_large_iff RS (by omega) hmax] at h
  unfold to_uint32
  omega

theorem split_within {RS : Int} {r : GenomicRegion} {app : List GenomicRegion}
    (h : Split RS r app) (hRS : 1 ≤ RS) (hmax : RS + RS / 10 ≤ 9223372036854775807) :
    r.begin ≤ r.«end» → r.«end» < 4294967296 → ∀ x ∈ app, within x r := by
  induction h with
  | last r hn =>
    intro hle _ x hx
    rw [List.mem_singleton] at hx
    subst hx
    exact ⟨rfl, le_refl _, hle, le_refl _⟩
  | step r rest ht hs ih =>
    intro hle hlt x hx
    obtain ⟨hw, hb⟩ := step_no_wrap RS hRS hmax r hle hlt ht
    rw [hw] at ih hx
    rcases List.mem_cons.1 hx with hx | hx
    · subst hx
      exact ⟨rfl, le_refl _, Nat.le_add_right _ _, Nat.le_of_lt hb⟩
    · obtain ⟨h1, h2, h3, h4⟩ := ih (Nat.le_of_lt hb) hlt x hx
      exact ⟨h1, Nat.le_trans (Nat.le_add_right _ _) h2, h3, h4⟩

theorem split_chain {RS : Int} {r : GenomicRegion} {app : List GenomicRegion}
    (h : Split RS r app) :
    List.Chain' (fun x y : GenomicRegion => x.«end» = y.begin) app := by
  induction h with
  | last r hn => exact List.chain'_singleton r
  | step r rest ht hs ih =>
    rw [List.chain'_cons']
    refine ⟨?_, ih⟩
    intro y hy
    obtain ⟨first, hf, hb⟩ := split_head hs
    rw [hf] at hy
    cases hy
    exact hb.symm

theorem split_pairwise {RS : Int} {r : GenomicRegion} {app : List GenomicRegion}
    (h : Split RS r app) (hRS : 1 ≤ RS) (hmax : RS + RS / 10 ≤ 9223372036854775807) :
    r.begin ≤ r.«end» → r.«end» < 4294967296 →
      List.Pairwise (fun x y : GenomicRegion => x.«end» ≤ y.begin) app := by
  induction h with
  | last r hn =>
    intro _ _
    exact List.pairwise_singleton _ r
  | step r rest ht hs ih =>
    intro hle hlt
    obtain ⟨hw, hb⟩ := step_no_wrap RS hRS hmax r hle hlt ht
    have hin := split_within hs hRS hmax
    rw [hw] at ih hin ⊢
    rw [List.pairwise_cons]
    refine ⟨?_, ih (Nat.le_of_lt hb) hlt⟩
    intro y hy
    exact (hin (Nat.le_of_lt hb) hlt y hy).2.1

theorem split_cover {RS : Int} {r : GenomicRegion} {app : List GenomicRegion}
    (h : Split RS r app) (hRS : 1 ≤ RS) (hmax : RS + RS / 10 ≤ 9223372036854775807) :
    r.begin ≤ r.«end» → r.«end» < 4294967296 →
      ∀ pos : Nat, (r.begin ≤ pos ∧ pos < r.«end») ↔
        ∃ x ∈ app, x.begin ≤ pos ∧ pos < x.«end» := by
  induction h with
  | last r hn =>
    intro _ _ pos
    simp
  | step r rest ht hs ih =>
    intro hle hlt pos
    obtain ⟨hw, hb⟩ := step_no_wrap RS hRS hmax r hle hlt ht
    rw [hw] at ih ⊢
    have ih1 := ih (Nat.le_of_lt hb) hlt pos
    simp only [List.exists_mem_cons_iff, ← ih1]
    omega

theorem not_overlap_of_le {x y : GenomicRegion} (h : x.«end» ≤ y.begin) : ¬ overlap x y := by
  rintro ⟨_, ho⟩
  omega

theorem overlap_iff (r s : GenomicRegion) :
    overlap r s ↔ r.chr = s.chr ∧
      ∃ pos : Nat, (r.begin ≤ pos ∧ pos < r.«end») ∧ (s.begin ≤ pos ∧ pos < s.«end») := by
  unfold overlap
  constructor
  · rintro ⟨hc, ho⟩
    exact ⟨hc, max r.begin s.begin, by omega⟩
  · rintro ⟨hc, pos, hp⟩
    exact ⟨hc, by omega⟩

theorem not_overlap_of_within {x y q1 q2 : GenomicRegion} (hx : within x q1)
    (hy : within y q2) (hq : ¬ overlap q1 q2) : ¬ overlap x y := by
  unfold overlap within at *
  rintro ⟨hc, ho⟩
  apply hq
  refine ⟨?_, ?_⟩
  · rw [← hx.1, ← hy.1]
    exact hc
  · omega

theorem clamp_in_range (L : Nat) (hL1 : 1 ≤ L) (hL2 : L < 4294967296) (r : GenomicRegion)
    (hle : r.begin ≤ r.«end») :
    clamp_to_contig (L : Int) r =
        { r with begin := min r.begin (L - 1), «end» := min r.«end» L } ∧
      (clamp_to_contig (L : Int) r).begin ≤ (clamp_to_contig (L : Int) r).«end» ∧
      (clamp_to_contig (L : Int) r).«end» < 4294967296 ∧
      sub_uint32 (clamp_to_contig (L : Int) r).«end» (clamp_to_contig (L : Int) r).begin =
        min r.«end» L - min r.begin (L - 1) := by
  have h1 : to_uint32 ((L : Int) - 1) = L - 1 := by unfold to_uint32; omega
  have h2 : to_uint32 (L : Int) = L := by unfold to_uint32; omega
  unfold clamp_to_contig sub_uint32
  rw [h1, h2]
  refine ⟨rfl, ?_, ?_, ?_⟩
  · show min r.begin (L - 1) ≤ min r.«end» L
    omega
  · show min r.«end» L < 4294967296
    omega
  · show to_uint32 (((min r.«end» L : Nat) : Int) - ((min r.begin (L - 1) : Nat) : Int)) = _
    unfold to_uint32
    omega

theorem clamp_inv (L : Int) (r : GenomicRegion) (hle : r.begin ≤ r.«end») :
    (clamp_to_contig L r).begin < 4294967296 ∧ (clamp_to_contig L r).«end» < 4294967296 ∧
      ((clamp_to_contig L r).begin ≤ (clamp_to_contig L r).«end» ∨
        (clamp_to_contig L r).«end» = 0) := by
  show min r.begin (to_uint32 (L - 1)) < 4294967296 ∧ min r.«end» (to_uint32 L) < 4294967296 ∧
    (min r.begin (to_uint32 (L - 1)) ≤ min r.«end» (to_uint32 L) ∨
      min r.«end» (to_uint32 L) = 0)
  unfold to_uint32
  omega

theorem split_lengths {RS : Int} {r : GenomicRegion} {app : List GenomicRegion}
    (h : Split RS r app) (hRS : 1 ≤ RS) (hmax : RS + RS / 10 ≤ 9223372036854775807) :
    r.begin < 4294967296 → r.«end» < 4294967296 → (r.begin ≤ r.«end» ∨ r.«end» = 0) →
      (∀ x ∈ app.dropLast, (x.«end» : Int) - x.begin = RS) ∧
        ∀ l, app.getLast? = some l →
          (sub_uint32 l.«end» l.begin : Int) ≤ RS + RS / 10 ∧
            (l.«end» : Int) - l.begin ≤ RS + RS / 10 := by
  induction h with
  | last r hn =>
    intro hb he hinv
    refine ⟨by simp, ?_⟩
    intro l hl
    simp only [List.getLast?_singleton, Option.some.injEq] at hl
    subst hl
    rw [too_large_iff RS (by omega) hmax] at hn
    unfold sub_uint32 to_uint32
    omega
  | step r rest ht hs ih =>
    intro hb he hinv
    have ht1 := (too_large_iff RS (by omega) hmax r).1 ht
    have hw : to_uint32 ((r.begin : Int) + RS) = r.begin + RS.toNat := by
      unfold to_uint32
      omega
    rw [hw] at ih ⊢
    obtain ⟨ih1, ih2⟩ := ih (by show r.begin + RS.toNat < 4294967296; omega) he
      (by show r.begin + RS.toNat ≤ r.«end» ∨ r.«end» = 0; omega)
    obtain ⟨y, ys, hy⟩ := List.exists_cons_of_ne_nil (split_ne_nil hs)
    rw [hy] at ih1 ih2 ⊢
    rw [List.dropLast_cons₂, List.getLast?_cons_cons]
    refine ⟨?_, ih2⟩
    intro x hx
    rcases List.mem_cons.1 hx with hx | hx
    · subst hx
      show ((r.begin + RS.toNat : Nat) : Int) - r.begin = RS
      omega
    · exact ih1 x hx

/-! ## One call of `add_region` -/

/-- C7, as stated, fails: for `REGION_SIZE = 9000000000000000000` the `long` sum
`REGION_SIZE + REGION_SIZE / 10` overflows to a negative value, so the loop condition
holds for every region. For the request `chr1:0-100` the first piece is
`[0, 3800301568)`, which ends beyond the clamped request, and the call never returns. -/
theorem add_region_no_cover_for_huge_region_size :
    to_long (9000000000000000000 + (9000000000000000000 : Int).tdiv 10) =
        -8546744073709551616 ∧
      too_large 9000000000000000000 (clamp_to_contig 1000000 (example_parse "chr1:0-100")) ∧
      to_uint32 (((clamp_to_contig 1000000 (example_parse "chr1:0-100")).begin : Int) +
        9000000000000000000) = 3800301568 ∧
      (clamp_to_contig 1000000 (example_parse "chr1:0-100")).«end» = 100 ∧
      ∀ fuel : Nat, add_region example_parse fuel example_contigs [] "chr1:0-100"
        9000000000000000000 = none :=
  ⟨by decide, by decide, by decide, by decide,
    add_region_never_ends example_parse example_contigs [] "chr1:0-100" 9000000000000000000
      1000000 (by decide) (by decide)⟩

/-- C7, amended: for a request with `begin <= end` on a known contig of length `L`,
`1 <= L < 2^32`, and `REGION_SIZE >= 1` with
`REGION_SIZE + REGION_SIZE / 10 <= 2^63 - 1`, one call of `add_region` returns and appends
regions that all carry the requested contig, the first beginning at `min(begin, L-1)`,
the last ending at `min(end, L)`, each ending where the next begins, each with
`begin <= end`, no two overlapping, and together covering exactly the positions of the
clamped request. -/
theorem add_region_covers_clamped_request (parse : String → GenomicRegion) (fuel : Nat)
    (contig2length : String → Option Int) (regions : List GenomicRegion)
    (region_str : String) (REGION_SIZE L : Nat)
    (hle : (parse region_str).begin ≤ (parse region_str).«end»)
    (hknown : contig2length (parse region_str).chr = some (L : Int))
    (hL1 : 1 ≤ L) (hL2 : L < 2 ^ 32) (hRS : 1 ≤ REGION_SIZE)
    (hmax : REGION_SIZE + REGION_SIZE / 10 ≤ 9223372036854775807)
    (hfuel : (min (parse region_str).«end» L - min (parse region_str).begin (L - 1)) /
      REGION_SIZE ≤ fuel) :
    ∃ app, add_region parse fuel contig2length regions region_str (REGION_SIZE : Int) =
        some (regions ++ app) ∧
      (∀ r ∈ app, r.chr = (parse region_str).chr) ∧
      (∃ first, app.head? = some first ∧
        first.begin = min (parse region_str).begin (L - 1)) ∧
      (∃ last, app.getLast? = some last ∧ last.«end» = min (parse region_str).«end» L) ∧
      List.Chain' (fun r s : GenomicRegion => r.«end» = s.begin) app ∧
      (∀ r ∈ app, r.begin ≤ r.«end») ∧
      List.Pairwise (fun r s : GenomicRegion => ¬ overlap r s) app ∧
      (∀ pos : Nat,
        (min (parse region_str).begin (L - 1) ≤ pos ∧ pos < min (parse region_str).«end» L) ↔
          ∃ r ∈ app, r.begin ≤ pos ∧ pos < r.«end») := by
  have hL2 : L < 4294967296 := by omega
  obtain ⟨hc, hcle, hclt, hclen⟩ := clamp_in_range L hL1 hL2 (parse region_str) hle
  have hRS1 : (1 : Int) ≤ (REGION_SIZE : Int) := by omega
  have hmax1 : (REGION_SIZE : Int) + (REGION_SIZE : Int) / 10 ≤ 9223372036854775807 := by omega
  obtain ⟨app, happ, hs⟩ := add_region_loop_split (REGION_SIZE : Int) hRS1 hmax1 fuel
    (clamp_to_contig (L : Int) (parse region_str)) regions
    (by rw [hclen, Int.toNat_ofNat]; exact hfuel)
  have hw := split_within hs hRS1 hmax1 hcle hclt
  refine ⟨app, ?_, ?_, ?_, ?_, split_chain hs, ?_, ?_, ?_⟩
  · simp only [add_region, hknown]
    exact happ
  · intro r hr
    exact (hw r hr).1
  · obtain ⟨first, hf, hb⟩ := split_head hs
    exact ⟨first, hf, by rw [hb, hc]⟩
  · obtain ⟨l, hl, he⟩ := split_last hs
    exact ⟨l, hl, by rw [he, hc]⟩
  · intro r hr
    exact (hw r hr).2.2.1
  · exact (split_pairwise hs hRS1 hmax1 hcle hclt).imp not_overlap_of_le
  · have hcov := split_cover hs hRS1 hmax1 hcle hclt
    rw [hc] at hcov
    exact hcov

/-- The request `chr1:1000-121000` with `REGION_SIZE = 50000` on a contig of length
1,000,000 satisfies the hypotheses of C7. -/
theorem add_region_covers_clamped_request_example :
    ∃ app, add_region example_parse 2 example_contigs [] "chr1:1000-121000"
          ((50000 : Nat) : Int) = some ([] ++ app) ∧
      (∀ r ∈ app, r.chr = (example_parse "chr1:1000-121000").chr) ∧
      (∃ first, app.head? = some first ∧
        first.begin = min (example_parse "chr1:1000-121000").begin (1000000 - 1)) ∧
      (∃ last, app.getLast? = some last ∧
        last.«end» = min (example_parse "chr1:1000-121000").«end» 1000000) ∧
      List.Chain' (fun r s : GenomicRegion => r.«end» = s.begin) app ∧
      (∀ r ∈ app, r.begin ≤ r.«end») ∧
      List.Pairwise (fun r s : GenomicRegion => ¬ overlap r s) app ∧
      (∀ pos : Nat,
        (min (example_parse "chr1:1000-121000").begin (1000000 - 1) ≤ pos ∧
            pos < min (example_parse "chr1:1000-121000").«end» 1000000) ↔
          ∃ r ∈ app, r.begin ≤ pos ∧ pos < r.«end») :=
  add_region_covers_clamped_request example_parse 2 example_contigs []
    "chr1:1000-121000" 50000 1000000 (by decide) (by decide) (by decide) (by decide)
    (by decide) (by decide) (by decide)

/-- C8, as stated, fails: for `REGION_SIZE = 9000000000000000000` the `long` sum
`REGION_SIZE + REGION_SIZE / 10` overflows to a negative value. For the request
`chr1:1000-121000` every iteration appends a piece whose 32-bit length is
`REGION_SIZE mod 2^32 = 3800301568`, not `REGION_SIZE`, and the call never returns. -/
theorem add_region_piece_length_for_huge_region_size :
    too_large 9000000000000000000
        (clamp_to_contig 1000000 (example_parse "chr1:1000-121000")) ∧
      sub_uint32
          (to_uint32 (((clamp_to_contig 1000000 (example_parse "chr1:1000-121000")).begin : Int) +
            9000000000000000000))
          (clamp_to_contig 1000000 (example_parse "chr1:1000-121000")).begin = 3800301568 ∧
      ((3800301568 : Nat) : Int) ≠ 9000000000000000000 ∧
      ∀ fuel : Nat, add_region example_parse fuel example_contigs [] "chr1:1000-121000"
        9000000000000000000 = none :=
  ⟨by decide, by decide, by decide,
    add_region_never_ends example_parse example_contigs [] "chr1:1000-121000"
      9000000000000000000 1000000 (by decide) (by decide)⟩

/-- C8, amended: for a request with `begin <= end` on a known contig and
`REGION_SIZE >= 1` with `REGION_SIZE + REGION_SIZE / 10 <= 2^63 - 1`,
`add_region` returns, every region it appends except the last has length exactly
`REGION_SIZE`, and the last has length at most `REGION_SIZE + REGION_SIZE / 10`, both as
the 32-bit difference `end - begin` that the loop tests and as the integer
`end - begin`. -/
theorem add_region_piece_lengths (parse : String → GenomicRegion) (fuel : Nat)
    (contig2length : String → Option Int) (regions : List GenomicRegion)
    (region_str : String) (REGION_SIZE : Nat) (L : Int)
    (hle : (parse region_str).begin ≤ (parse region_str).«end»)
    (hknown : contig2length (parse region_str).chr = some L)
    (hRS : 1 ≤ REGION_SIZE)
    (hmax : REGION_SIZE + REGION_SIZE / 10 ≤ 9223372036854775807)
    (hfuel : sub_uint32 (clamp_to_contig L (parse region_str)).«end»
      (clamp_to_contig L (parse region_str)).begin / REGION_SIZE ≤ fuel) :
    ∃ app, add_region parse fuel contig2length regions region_str (REGION_SIZE : Int) =
        some (regions ++ app) ∧
      (∀ r ∈ app.dropLast, (r.«end» : Int) - r.begin = REGION_SIZE) ∧
      (∃ last, app.getLast? = some last ∧
        sub_uint32 last.«end» last.begin ≤ REGION_SIZE + REGION_SIZE / 10 ∧
        (last.«end» : Int) - last.begin ≤ ((REGION_SIZE + REGION_SIZE / 10 : Nat) : Int)) := by
  obtain ⟨hb, he, hinv⟩ := clamp_inv L (parse region_str) hle
  have hRS1 : (1 : Int) ≤ (REGION_SIZE : Int) := by omega
  have hmax1 : (REGION_SIZE : Int) + (REGION_SIZE : Int) / 10 ≤ 9223372036854775807 := by omega
  obtain ⟨app, happ, hs⟩ := add_region_loop_split (REGION_SIZE : Int) hRS1 hmax1 fuel
    (clamp_to_contig L (parse region_str)) regions
    (by rw [Int.toNat_ofNat]; exact hfuel)
  obtain ⟨h1, h2⟩ := split_lengths hs hRS1 hmax1 hb he hinv
  refine ⟨app, ?_, h1, ?_⟩
  · simp only [add_region, hknown]
    exact happ
  · obtain ⟨l, hl, _⟩ := split_last hs
    obtain ⟨h3, h4⟩ := h2 l hl
    exact ⟨l, hl, by omega, by omega⟩

/-- Scenario C: the request `chr1:1000-121000`, of length 120,000, with
`REGION_SIZE = 50000` appends exactly three regions, of lengths 50,000, 50,000 and
20,000. -/
theorem add_region_piece_lengths_scenario_C :
    add_region example_parse 2 example_contigs [] "chr1:1000-121000" 50000 =
        some [⟨"chr1", 1000, 51000⟩, ⟨"chr1", 51000, 101000⟩, ⟨"chr1", 101000, 121000⟩] ∧
      ∃ app, add_region example_parse 2 example_contigs [] "chr1:1000-121000"
          ((50000 : Nat) : Int) = some ([] ++ app) ∧
        (∀ r ∈ app.dropLast, (r.«end» : Int) - r.begin = (50000 : Nat)) ∧
        (∃ last, app.getLast? = some last ∧
          sub_uint32 last.«end» last.begin ≤ 50000 + 50000 / 10 ∧
          (last.«end» : Int) - last.begin ≤ ((50000 + 50000 / 10 : Nat) : Int)) :=
  ⟨by decide,
    add_region_piece_lengths example_parse 2 example_contigs [] "chr1:1000-121000" 50000
      1000000 (by decide) (by decide) (by decide) (by decide) (by decide)⟩

/-- C9, as stated, fails: for `REGION_SIZE = 9000000000000000000` the `long` sum
`REGION_SIZE + REGION_SIZE / 10` overflows to a negative value. The request `chr1:50-150`
has the clamped length 100, far below `REGION_SIZE + REGION_SIZE / 10`, and yet the loop
condition holds for it: it is split, and the call never returns. -/
theorem add_region_splits_short_request_for_huge_region_size :
    sub_uint32 (clamp_to_contig 1000000 (example_parse "chr1:50-150")).«end»
        (clamp_to_contig 1000000 (example_parse "chr1:50-150")).begin = 100 ∧
      (100 : Int) ≤ 9000000000000000000 + 9000000000000000000 / 10 ∧
      too_large 9000000000000000000 (clamp_to_contig 1000000 (example_parse "chr1:50-150")) ∧
      ∀ fuel : Nat, add_region example_parse fuel example_contigs [] "chr1:50-150"
        9000000000000000000 = none :=
  ⟨by decide, by decide, by decide,
    add_region_never_ends example_parse example_contigs [] "chr1:50-150"
      9000000000000000000 1000000 (by decide) (by decide)⟩

/-- C9, amended: for a request with `begin <= end` on a known contig and
`REGION_SIZE >= 1` with `REGION_SIZE + REGION_SIZE / 10 <= 2^63 - 1`,
`add_region` returns and appends exactly one region, the clamped request itself, when
the length `end - begin` of the clamped request (the 32-bit difference that the loop
tests) is at most `REGION_SIZE + REGION_SIZE / 10`, and at least two regions when it is
larger. For a contig length `1 <= L < 2^32` the clamped request has `begin <= end` and
that difference is its length `end - begin`. -/
theorem add_region_splits_iff (parse : String → GenomicRegion) (fuel : Nat)
    (contig2length : String → Option Int) (regions : List GenomicRegion)
    (region_str : String) (REGION_SIZE : Nat) (L : Int)
    (hle : (parse region_str).begin ≤ (parse region_str).«end»)
    (hknown : contig2length (parse region_str).chr = some L)
    (hRS : 1 ≤ REGION_SIZE)
    (hmax : REGION_SIZE + REGION_SIZE / 10 ≤ 9223372036854775807)
    (hfuel : sub_uint32 (clamp_to_contig L (parse region_str)).«end»
      (clamp_to_contig L (parse region_str)).begin / REGION_SIZE ≤ fuel) :
    ∃ app, add_region parse fuel contig2length regions region_str (REGION_SIZE : Int) =
        some (regions ++ app) ∧
      (sub_uint32 (clamp_to_contig L (parse region_str)).«end»
          (clamp_to_contig L (parse region_str)).begin ≤ REGION_SIZE + REGION_SIZE / 10 →
        app = [clamp_to_contig L (parse region_str)]) ∧
      (REGION_SIZE + REGION_SIZE / 10 <
          sub_uint32 (clamp_to_contig L (parse region_str)).«end»
            (clamp_to_contig L (parse region_str)).begin →
        2 ≤ app.length) ∧
      (1 ≤ L → L < 4294967296 →
        (clamp_to_contig L (parse region_str)).begin ≤
            (clamp_to_contig L (parse region_str)).«end» ∧
          sub_uint32 (clamp_to_contig L (parse region_str)).«end»
              (clamp_to_contig L (parse region_str)).begin =
            (clamp_to_contig L (parse region_str)).«end» -
              (clamp_to_contig L (parse region_str)).begin) := by
  have hRS1 : (1 : Int) ≤ (REGION_SIZE : Int) := by omega
  have hmax1 : (REGION_SIZE : Int) + (REGION_SIZE : Int) / 10 ≤ 9223372036854775807 := by omega
  obtain ⟨app, happ, hs⟩ := add_region_loop_split (REGION_SIZE : Int) hRS1 hmax1 fuel
    (clamp_to_contig L (parse region_str)) regions
    (by rw [Int.toNat_ofNat]; exact hfuel)
  obtain ⟨h1, h2⟩ := split_count hs
  have hiff : too_large (REGION_SIZE : Int) (clamp_to_contig L (parse region_str)) ↔
      REGION_SIZE + REGION_SIZE / 10 <
        sub_uint32 (clamp_to_contig L (parse region_str)).«end»
          (clamp_to_contig L (parse region_str)).begin := by
    rw [too_large_iff _ (by omega) hmax1]
    unfold sub_uint32 to_uint32
    omega
  refine ⟨app, ?_, ?_, ?_, ?_⟩
  · simp only [add_region, hknown]
    exact happ
  · intro h
    exact h1 (fun ht => by have := hiff.1 ht; omega)
  · intro h
    exact h2 (hiff.2 h)
  · intro hL1 hL2
    obtain ⟨hb, he, hinv⟩ := clamp_inv L (parse region_str) hle
    have hbe : (clamp_to_contig L (parse region_str)).begin ≤
        (clamp_to_contig L (parse region_str)).«end» := by
      show min (parse region_str).begin (to_uint32 (L - 1)) ≤
        min (parse region_str).«end» (to_uint32 L)
      unfold to_uint32
      omega
    refine ⟨hbe, ?_⟩
    unfold sub_uint32 to_uint32
    omega

/-- The request `chr1:0-100` is not split and `chr1:1000-121000` is, for
`REGION_SIZE = 50000`. -/
theorem add_region_splits_iff_example :
    add_region example_parse 0 example_contigs [] "chr1:0-100" 50000 =
        some [⟨"chr1", 0, 100⟩] ∧
      ∃ app, add_region example_parse 2 example_contigs [] "chr1:1000-121000"
          ((50000 : Nat) : Int) = some ([] ++ app) ∧
        (sub_uint32 (clamp_to_contig 1000000 (example_parse "chr1:1000-121000")).«end»
            (clamp_to_contig 1000000 (example_parse "chr1:1000-121000")).begin ≤
              50000 + 50000 / 10 →
          app = [clamp_to_contig 1000000 (example_parse "chr1:1000-121000")]) ∧
        (50000 + 50000 / 10 <
            sub_uint32 (clamp_to_contig 1000000 (example_parse "chr1:1000-121000")).«end»
              (clamp_to_contig 1000000 (example_parse "chr1:1000-121000")).begin →
          2 ≤ app.length) ∧
        ((1 : Int) ≤ 1000000 → (1000000 : Int) < 4294967296 →
          (clamp_to_contig 1000000 (example_parse "chr1:1000-121000")).begin ≤
              (clamp_to_contig 1000000 (example_parse "chr1:1000-121000")).«end» ∧
            sub_uint32 (clamp_to_contig 1000000 (example_parse "chr1:1000-121000")).«end»
                (clamp_to_contig 1000000 (example_parse "chr1:1000-121000")).begin =
              (clamp_to_contig 1000000 (example_parse "chr1:1000-121000")).«end» -
                (clamp_to_contig 1000000 (example_parse "chr1:1000-121000")).begin) :=
  ⟨by decide,
    add_region_splits_iff example_parse 2 example_contigs [] "chr1:1000-121000" 50000
      1000000 (by decide) (by decide) (by decide) (by decide) (by decide)⟩

/-! ## All the calls of `get_regions` -/

theorem add_region_known (parse : String → GenomicRegion) (fuel : Nat)
    (contig2length : String → Option Int) (regions : List GenomicRegion)
    (region_str : String) (REGION_SIZE : Nat) (L : Int)
    (hle : (parse region_str).begin ≤ (parse region_str).«end»)
    (hknown : contig2length (parse region_str).chr = some L)
    (hL1 : 1 ≤ L) (hL2 : L < 4294967296) (hRS : 1 ≤ REGION_SIZE)
    (hmax : REGION_SIZE + REGION_SIZE / 10 ≤ 9223372036854775807)
    (hfuel : (parse region_str).«end» ≤ fuel) :
    ∃ app, add_region parse fuel contig2length regions region_str (REGION_SIZE : Int) =
        some (regions ++ app) ∧
      (∀ x ∈ app, within x (clamp_to_contig L (parse region_str))) ∧
      List.Pairwise (fun r s : GenomicRegion => ¬ overlap r s) app := by
  obtain ⟨n, rfl⟩ := Int.eq_ofNat_of_zero_le (by omega : 0 ≤ L)
  obtain ⟨_, hcle, hclt, hclen⟩ := clamp_in_range n (by omega) (by omega) (parse region_str) hle
  have hRS1 : (1 : Int) ≤ (REGION_SIZE : Int) := by omega
  have hmax1 : (REGION_SIZE : Int) + (REGION_SIZE : Int) / 10 ≤ 9223372036854775807 := by omega
  obtain ⟨app, happ, hs⟩ := add_region_loop_split (REGION_SIZE : Int) hRS1 hmax1 fuel
    (clamp_to_contig (n : Int) (parse region_str)) regions
    (by
      rw [hclen, Int.toNat_ofNat]
      exact Nat.le_trans (Nat.div_le_self _ _) (by omega))
  refine ⟨app, ?_, split_within hs hRS1 hmax1 hcle hclt,
    (split_pairwise hs hRS1 hmax1 hcle hclt).imp not_overlap_of_le⟩
  simp only [add_region, hknown]
  exact happ

theorem add_regions_of_lines_disjoint (parse : String → GenomicRegion) (fuel : Nat)
    (contig2length : String → Option Int) (REGION_SIZE : Nat) (hRS : 1 ≤ REGION_SIZE)
    (hmax : REGION_SIZE + REGION_SIZE / 10 ≤ 9223372036854775807) :
    ∀ (lines : List String) (regions : List GenomicRegion),
      (∀ s ∈ lines, (parse s).begin ≤ (parse s).«end» ∧ (parse s).«end» ≤ fuel ∧
        ∀ L ∈ contig2length (parse s).chr, 1 ≤ L ∧ L < 4294967296) →
      lines.Pairwise (fun s1 s2 => ∀ L1 ∈ contig2length (parse s1).chr,
        ∀ L2 ∈ contig2length (parse s2).chr,
          ¬ overlap (clamp_to_contig L1 (parse s1)) (clamp_to_contig L2 (parse s2))) →
      ∃ out, add_regions_of_lines parse fuel contig2length (REGION_SIZE : Int) lines regions =
          some (regions ++ out) ∧
        List.Pairwise (fun r s : GenomicRegion => ¬ overlap r s) out ∧
        ∀ x ∈ out, ∃ s ∈ lines, ∃ L ∈ contig2length (parse s).chr,
          within x (clamp_to_contig L (parse s))
  | [], regions, _, _ => ⟨[], by simp [add_regions_of_lines], List.Pairwise.nil, by simp⟩
  | s :: rest, regions, hreq, hdisj => by
    obtain ⟨hle, hfuel, hL⟩ := hreq s (List.mem_cons_self s rest)
    have hreq1 : ∀ t ∈ rest, (parse t).begin ≤ (parse t).«end» ∧ (parse t).«end» ≤ fuel ∧
        ∀ L ∈ contig2length (parse t).chr, 1 ≤ L ∧ L < 4294967296 :=
      fun t ht => hreq t (List.mem_cons_of_mem s ht)
    obtain ⟨hcross, hdisj1⟩ := List.pairwise_cons.1 hdisj
    cases hk : contig2length (parse s).chr with
    | none =>
      obtain ⟨out, hout, hp, hin⟩ := add_regions_of_lines_disjoint parse fuel contig2length
        REGION_SIZE hRS hmax rest regions hreq1 hdisj1
      refine ⟨out, ?_, hp, ?_⟩
      · simp only [add_regions_of_lines, add_region, hk]
        exact hout
      · intro x hx
        obtain ⟨t, ht, hx1⟩ := hin x hx
        exact ⟨t, List.mem_cons_of_mem s ht, hx1⟩
    | some L =>
      obtain ⟨hL1, hL2⟩ := hL L hk
      obtain ⟨app, happ, hw, hp⟩ := add_region_known parse fuel contig2length regions s
        REGION_SIZE L hle hk hL1 hL2 hRS hmax hfuel
      obtain ⟨out, hout, hp1, hin⟩ := add_regions_of_lines_disjoint parse fuel contig2length
        REGION_SIZE hRS hmax rest (regions ++ app) hreq1 hdisj1
      refine ⟨app ++ out, ?_, ?_, ?_⟩
      · simp only [add_regions_of_lines, happ]
        rw [hout, List.append_assoc]
      · rw [List.pairwise_append]
        refine ⟨hp, hp1, ?_⟩
        intro x hx y hy
        obtain ⟨t, ht, L2, hk2, hy1⟩ := hin y hy
        exact not_overlap_of_within (hw x hx) hy1 (hcross t ht L hk L2 hk2)
      · intro x hx
        rcases List.mem_append.1 hx with hx | hx
        · exact ⟨s, List.mem_cons_self s rest, L, hk, hw x hx⟩
        · obtain ⟨t, ht, hx1⟩ := hin x hx
          exact ⟨t, List.mem_cons_of_mem s ht, hx1⟩

theorem get_regions_eq (parse : String → GenomicRegion) (fuel : Nat)
    (contig2length : String → Option Int) (opts_region opts_region_fn : String)
    (file_lines : List String) (REGION_SIZE : Int) :
    get_regions parse fuel contig2length opts_region opts_region_fn file_lines REGION_SIZE =
      match add_regions_of_lines parse fuel contig2length REGION_SIZE
          (requests opts_region opts_region_fn file_lines) [] with
      | none => none
      | some regions =>
        if regions.length = 0 then some (Outcome.exited 1)
        else some (Outcome.returned regions) := by
  unfold get_regions requests
  by_cases h1 : opts_region.length > 0 <;> by_cases h2 : opts_region_fn.length > 0
  · simp only [h1, h2, if_true, List.singleton_append, add_regions_of_lines]
    cases add_region parse fuel contig2length [] opts_region REGION_SIZE <;> rfl
  · simp only [h1, h2, if_true, if_false, List.append_nil, add_regions_of_lines]
    cases add_region parse fuel contig2length [] opts_region REGION_SIZE <;> rfl
  · simp only [h1, h2, if_true, if_false, List.nil_append]
  · simp only [h1, h2, if_false, List.append_nil, add_regions_of_lines]

/-- C10, as stated, fails: with `--region chr1:0-100` and a region file whose only line
is `chr1:50-150`, `get_regions` returns the two requests as they are, and they share the
positions 50 to 99 of `chr1`. -/
theorem get_regions_overlapping_requests :
    get_regions example_parse 0 example_contigs "chr1:0-100" "regions.txt"
        ["chr1:50-150"] 50000 =
        some (Outcome.returned [⟨"chr1", 0, 100⟩, ⟨"chr1", 50, 150⟩]) ∧
      overlap ⟨"chr1", 0, 100⟩ ⟨"chr1", 50, 150⟩ ∧
      ¬ List.Pairwise (fun r s : GenomicRegion => ¬ overlap r s)
        [⟨"chr1", 0, 100⟩, ⟨"chr1", 50, 150⟩] := by
  refine ⟨by decide, by decide, by decide⟩

/-- C10, amended: when the requests, each clamped to its contig, do not overlap one
another, the regions that `get_regions` produces do not overlap either. Every request
has `begin <= end`, every contig it names has a length `1 <= L < 2^32`, and
`REGION_SIZE >= 1` with `REGION_SIZE + REGION_SIZE / 10 <= 2^63 - 1`; `get_regions` then
ends, with exit status 1 when no region was
produced and with the list otherwise, and any two entries of the list at different
places are on different contigs or have disjoint half-open intervals. -/
theorem get_regions_no_overlap (parse : String → GenomicRegion) (fuel : Nat)
    (contig2length : String → Option Int) (opts_region opts_region_fn : String)
    (file_lines : List String) (REGION_SIZE : Nat) (hRS : 1 ≤ REGION_SIZE)
    (hmax : REGION_SIZE + REGION_SIZE / 10 ≤ 9223372036854775807)
    (hreq : ∀ s ∈ requests opts_region opts_region_fn file_lines,
      (parse s).begin ≤ (parse s).«end» ∧ (parse s).«end» ≤ fuel ∧
        ∀ L ∈ contig2length (parse s).chr, 1 ≤ L ∧ L < 4294967296)
    (hdisj : (requests opts_region opts_region_fn file_lines).Pairwise
      (fun s1 s2 => ∀ L1 ∈ contig2length (parse s1).chr,
        ∀ L2 ∈ contig2length (parse s2).chr,
          ¬ overlap (clamp_to_contig L1 (parse s1)) (clamp_to_contig L2 (parse s2)))) :
    ∃ regions,
      get_regions parse fuel contig2length opts_region opts_region_fn file_lines
          (REGION_SIZE : Int) =
        some (if regions.length = 0 then Outcome.exited 1 else Outcome.returned regions) ∧
      List.Pairwise (fun r s : GenomicRegion => ¬ overlap r s) regions := by
  obtain ⟨out, hout, hp, _⟩ := add_regions_of_lines_disjoint parse fuel contig2length
    REGION_SIZE hRS hmax (requests opts_region opts_region_fn file_lines) [] hreq hdisj
  refine ⟨out, ?_, hp⟩
  rw [get_regions_eq, hout]
  simp only [List.nil_append]
  split <;> rfl

/-- The requests `chr1:0-100` and `chr1:100-200` do not overlap, and neither do the two
regions that `get_regions` returns for them. -/
theorem get_regions_no_overlap_example :
    get_regions example_parse 200 example_contigs "chr1:0-100" "regions.txt"
        ["chr1:100-200"] 50000 =
        some (Outcome.returned [⟨"chr1", 0, 100⟩, ⟨"chr1", 100, 200⟩]) ∧
      ∃ regions,
        get_regions example_parse 200 example_contigs "chr1:0-100" "regions.txt"
            ["chr1:100-200"] ((50000 : Nat) : Int) =
          some (if regions.length = 0 then Outcome.exited 1 else Outcome.returned regions) ∧
        List.Pairwise (fun r s : GenomicRegion => ¬ overlap r s) regions :=
  ⟨by decide,
    get_regions_no_overlap example_parse 200 example_contigs "chr1:0-100" "regions.txt"
      ["chr1:100-200"] 50000 (by decide) (by decide) (by decide) (by decide)⟩

/-! ## Normalization is idempotent -/

theorem shared_suffix_base_false_of_head (seqs : List (List Char))
    (h : (seqs.headD []).length ≤ 1) : shared_suffix_base seqs = false := by
  cases seqs with
  | nil => rfl
  | cons s rest =>
    have hs : ¬ 1 < s.length := by
      simp only [List.headD_cons] at h
      omega
    simp [shared_suffix_base, hs]

theorem shared_prefix_base_false_of_head (seqs : List (List Char))
    (h : (seqs.headD []).length ≤ 1) : shared_prefix_base seqs = false := by
  cases seqs with
  | nil => rfl
  | cons s rest =>
    have hs : ¬ 1 < s.length := by
      simp only [List.headD_cons] at h
      omega
    simp [shared_prefix_base, hs]

theorem headD_map_length_le (f : List Char → List Char) (seqs : List (List Char)) (fuel : Nat)
    (hf : ∀ a : List Char, (f a).length = a.length - 1)
    (h : (seqs.headD []).length ≤ fuel + 1) : ((seqs.map f).headD []).length ≤ fuel := by
  cases seqs with
  | nil => simp
  | cons s rest =>
    simp only [List.map_cons, List.headD_cons, hf] at h ⊢
    omega

theorem normalize_loop_minimal :
    ∀ (fuel : Nat) (v : Variant), (v.seqs.headD []).length ≤ fuel + 1 →
      shared_suffix_base (Variant.normalize_loop fuel v).seqs = false ∧
        shared_prefix_base (Variant.normalize_loop fuel v).seqs = false
  | 0, v, h =>
    ⟨shared_suffix_base_false_of_head v.seqs h, shared_prefix_base_false_of_head v.seqs h⟩
  | fuel + 1, v, h => by
    unfold Variant.normalize_loop
    by_cases h1 : shared_suffix_base v.seqs = true
    · rw [if_pos h1]
      exact normalize_loop_minimal fuel _
        (headD_map_length_le List.dropLast v.seqs (fuel + 1) (fun a => List.length_dropLast a) h)
    · rw [if_neg h1]
      by_cases h2 : shared_prefix_base v.seqs = true
      · rw [if_pos h2]
        exact normalize_loop_minimal fuel _
          (headD_map_length_le List.tail v.seqs (fuel + 1) (fun a => List.length_tail a) h)
      · rw [if_neg h2]
        exact ⟨by simpa using h1, by simpa using h2⟩

theorem normalize_loop_of_minimal (fuel : Nat) (v : Variant)
    (h1 : shared_suffix_base v.seqs = false) (h2 : shared_prefix_base v.seqs = false) :
    Variant.normalize_loop fuel v = v := by
  cases fuel with
  | zero => rfl
  | succ n => simp [Variant.normalize_loop, h1, h2]

theorem variant_normalize_idempotent (v : Variant) : v.normalize.normalize = v.normalize := by
  obtain ⟨h1, h2⟩ := normalize_loop_minimal (v.seqs.headD []).length v (Nat.le_succ _)
  exact normalize_loop_of_minimal _ _ h1 h2

/-- C11: normalizing a candidate twice gives the same position and the same alleles as
normalizing it once, also under `operator==`; and once normalized, a candidate has no
shared suffix base and no shared prefix base left to trim. -/
theorem normalize_idempotent (v : VariantCandidate) :
    v.normalize.normalize = v.normalize ∧
      VariantCandidate.operator_eq v.normalize.normalize v.normalize = true ∧
      shared_suffix_base v.normalize.seqs = false ∧
      shared_prefix_base v.normalize.seqs = false := by
  have hidem : v.normalize.normalize = v.normalize := by
    have h := variant_normalize_idempotent { abs_pos := v.abs_pos, seqs := v.seqs }
    unfold VariantCandidate.normalize
    simp only
    rw [h]
  obtain ⟨h1, h2⟩ := normalize_loop_minimal (v.seqs.headD []).length
    { abs_pos := v.abs_pos, seqs := v.seqs } (Nat.le_succ _)
  refine ⟨hidem, ?_, h1, h2⟩
  rw [hidem, operator_eq_iff]
  exact ⟨rfl, rfl⟩

/-! ## Checks on input files -/

theorem string_length_eq_zero_iff (s : String) : s.length = 0 ↔ s = "" := by
  constructor
  · intro h
    have hd : s.data = [] := List.length_eq_zero.1 h
    exact String.ext hd
  · rintro rfl
    rfl

theorem check_file_examples :
    is_file example_stat "variants.vcf.gz" = true ∧
      is_file example_stat "results" = false ∧
      check_file_exists_or_empty example_stat "variants.vcf.gz" = Outcome.returned () ∧
      check_file_exists_or_empty example_stat "missing.vcf.gz" = Outcome.exited 1 ∧
      check_file_exists_or_empty example_stat "results" = Outcome.exited 1 ∧
      check_file_exists_or_empty example_stat "" = Outcome.returned () ∧
      check_file_exists example_stat "" = Outcome.exited 1 := by
  refine ⟨by decide, by decide, by decide, by decide, by decide, by decide, by decide⟩

/-- C12: `check_file_exists_or_empty` exits, with status 1, exactly when the file name
is not empty and `is_file` is false for it; otherwise it returns; for the empty file
name it returns whatever the file system is. -/
theorem check_file_exists_or_empty_exits_iff (stat : String → Option Nat)
    (filename : String) :
    (check_file_exists_or_empty stat filename = Outcome.exited 1 ↔
        filename ≠ "" ∧ is_file stat filename = false) ∧
      (check_file_exists_or_empty stat filename = Outcome.returned () ↔
        ¬ (filename ≠ "" ∧ is_file stat filename = false)) ∧
      check_file_exists_or_empty stat "" = Outcome.returned () := by
  have hne : filename.length > 0 ↔ filename ≠ "" := by
    rw [← not_iff_not, not_not, ← string_length_eq_zero_iff]
    omega
  refine ⟨?_, ?_, ?_⟩
  · simp only [check_file_exists_or_empty, hne]
    split <;> simp_all
  · simp only [check_file_exists_or_empty, hne]
    split <;> simp_all
  · rfl

/-- C13: `check_file_exists` exits, with status 1, exactly when the file name is empty
or `is_file` is false for it, and returns otherwise; on a file name that is not empty it
does what `check_file_exists_or_empty` does, and on the empty file name it exits where
`check_file_exists_or_empty` returns. -/
theorem check_file_exists_exits_iff (stat : String → Option Nat) (filename : String) :
    (check_file_exists stat filename = Outcome.exited 1 ↔
        filename = "" ∨ is_file stat filename = false) ∧
      (check_file_exists stat filename = Outcome.returned () ↔
        ¬ (filename = "" ∨ is_file stat filename = false)) ∧
      (filename ≠ "" →
        check_file_exists stat filename = check_file_exists_or_empty stat filename) ∧
      (check_file_exists stat filename ≠ check_file_exists_or_empty stat filename →
        filename = "") ∧
      (check_file_exists stat "" = Outcome.exited 1 ∧
        check_file_exists_or_empty stat "" = Outcome.returned ()) := by
  have h0 : filename.length = 0 ↔ filename = "" := string_length_eq_zero_iff filename
  have hne : filename.length > 0 ↔ filename ≠ "" := by
    rw [← not_iff_not, not_not, ← h0]
    omega
  have hagree : filename ≠ "" →
      check_file_exists stat filename = check_file_exists_or_empty stat filename := by
    intro h
    simp only [check_file_exists, check_file_exists_or_empty, h0, hne]
    simp [h]
  refine ⟨?_, ?_, hagree, ?_, ?_, ?_⟩
  · simp only [check_file_exists, h0]
    split <;> simp_all
  · simp only [check_file_exists, h0]
    split <;> simp_all
  · intro hd
    by_contra h
    exact hd (hagree h)
  · simp [check_file_exists]
  · rfl

/-! ## Symmetries of the classifier and of the hash -/

/-- C19: for a candidate with exactly two alleles, `is_transition_or_transversion`
returns the same value when the two alleles are swapped. -/
theorem is_transition_or_transversion_swap (p : Nat) (a b : List Char) :
    (VariantCandidate.mk p [a, b]).is_transition_or_transversion =
      (VariantCandidate.mk p [b, a]).is_transition_or_transversion := by
  unfold VariantCandidate.is_transition_or_transversion VariantCandidate.first_base
  simp only [List.length_cons, List.length_nil, List.getD_cons_zero, List.getD_cons_succ]
  by_cases ha : a.length = 1 <;> by_cases hb : b.length = 1 <;> simp only [ha, hb] <;>
    simp only [and_self, and_true, and_false, true_and, false_and, if_true, if_false]
  have hor : (a.getD 0 'N' = 'A' ∧ b.getD 0 'N' = 'G' ∨ a.getD 0 'N' = 'G' ∧ b.getD 0 'N' = 'A' ∨
        a.getD 0 'N' = 'C' ∧ b.getD 0 'N' = 'T' ∨ a.getD 0 'N' = 'T' ∧ b.getD 0 'N' = 'C') ↔
      (b.getD 0 'N' = 'A' ∧ a.getD 0 'N' = 'G' ∨ b.getD 0 'N' = 'G' ∧ a.getD 0 'N' = 'A' ∨
        b.getD 0 'N' = 'C' ∧ a.getD 0 'N' = 'T' ∨ b.getD 0 'N' = 'T' ∧ a.getD 0 'N' = 'C') := by
    tauto
  simp only [hor]

/-- C20: for two biallelic candidates with the same alleles, the hashes are equal
exactly when `std::hash<uint32_t>` gives the same `size_t` for the two positions; with
the identity for `std::hash<uint32_t>`, two different 32-bit positions give different
hashes; and equal candidates have equal hashes. -/
theorem hash_separates_positions (std_hash : Nat → Nat) (hash_range : List Char → Nat)
    (p1 p2 : Nat) (A B : List Char) :
    (VariantCandidateHash std_hash hash_range ⟨p1, [A, B]⟩ =
        VariantCandidateHash std_hash hash_range ⟨p2, [A, B]⟩ ↔
      std_hash p1 % 2 ^ 64 = std_hash p2 % 2 ^ 64) ∧
    (p1 < 2 ^ 32 → p2 < 2 ^ 32 → p1 ≠ p2 →
      VariantCandidateHash id hash_range ⟨p1, [A, B]⟩ ≠
        VariantCandidateHash id hash_range ⟨p2, [A, B]⟩) ∧
    (∀ v w : VariantCandidate, v = w →
      VariantCandidateHash std_hash hash_range v =
        VariantCandidateHash std_hash hash_range w) := by
  have key : ∀ f : Nat → Nat,
      (VariantCandidateHash f hash_range ⟨p1, [A, B]⟩ =
          VariantCandidateHash f hash_range ⟨p2, [A, B]⟩ ↔
        f p1 % 2 ^ 64 = f p2 % 2 ^ 64) := by
    intro f
    simp only [VariantCandidateHash, List.length_cons, List.length_nil, if_true,
      List.getD_cons_zero, List.getD_cons_succ, Option.some.injEq]
    rw [Nat.xor_left_inj, Nat.xor_left_inj]
  refine ⟨key std_hash, ?_, ?_⟩
  · intro h1 h2 hne heq
    have h := (key id).1 heq
    simp only [id] at h
    omega
  · rintro v w rfl
    rfl

/-! ## Further lemmas on the loop of `add_region` -/

theorem sub_uint32_step (RS : Int) (hRS : 1 ≤ RS) (hmax : RS + RS / 10 ≤ 9223372036854775807) (r : GenomicRegion)
    (h : too_large RS r) :
    sub_uint32 r.«end» (to_uint32 ((r.begin : Int) + RS)) =
        sub_uint32 r.«end» r.begin - RS.toNat ∧
      RS.toNat + RS.toNat / 10 < sub_uint32 r.«end» r.begin := by
  rw [too_large_iff RS (by omega) hmax] at h
  unfold sub_uint32 to_uint32
  omega

theorem add_region_loop_extends (RS : Int) :
    ∀ (fuel : Nat) (r : GenomicRegion) (regions out : List GenomicRegion),
      add_region_loop RS fuel r regions = some out → regions <+: out
  | 0, r, regions, out, h => by
    unfold add_region_loop at h
    split at h
    · cases h
    · cases h
      exact List.prefix_append _ _
  | fuel + 1, r, regions, out, h => by
    unfold add_region_loop at h
    split at h
    · exact (List.prefix_append _ _).trans (add_region_loop_extends RS fuel _ _ out h)
    · cases h
      exact List.prefix_append _ _

theorem split_begin_lt {RS : Int} {r : GenomicRegion} {app : List GenomicRegion}
    (h : Split RS r app) (hRS : 1 ≤ RS) (hmax : RS + RS / 10 ≤ 9223372036854775807) :
    r.begin ≤ r.«end» → r.«end» < 4294967296 →
      ∀ x ∈ app, x.begin ≤ r.begin ∨ x.begin < r.«end» := by
  induction h with
  | last r hn =>
    intro _ _ x hx
    rw [List.mem_singleton] at hx
    subst hx
    exact Or.inl (le_refl _)
  | step r rest ht hs ih =>
    intro hle hlt x hx
    obtain ⟨hw, hb⟩ := step_no_wrap RS hRS hmax r hle hlt ht
    rw [hw] at ih hx
    rcases List.mem_cons.1 hx with hx | hx
    · subst hx
      exact Or.inl (le_refl _)
    · rcases ih (Nat.le_of_lt hb) hlt x hx with h1 | h1
      · exact Or.inr (Nat.lt_of_le_of_lt h1 hb)
      · exact Or.inr h1

theorem split_tail {RS : Int} {r : GenomicRegion} {app : List GenomicRegion}
    (h : Split RS r app) (hRS : 1 ≤ RS) (hmax : RS + RS / 10 ≤ 9223372036854775807) :
    2 ≤ app.length → ∀ l, app.getLast? = some l →
      RS.toNat / 10 < sub_uint32 l.«end» l.begin := by
  induction h with
  | last r hn =>
    intro h2
    simp at h2
  | step r rest ht hs ih =>
    intro _ l hl
    obtain ⟨y, ys, hy⟩ := List.exists_cons_of_ne_nil (split_ne_nil hs)
    rw [hy, List.getLast?_cons_cons, ← hy] at hl
    by_cases h2 : 2 ≤ rest.length
    · exact ih h2 l hl
    · have hnot : ¬ too_large RS { r with begin := to_uint32 ((r.begin : Int) + RS) } :=
        fun htl => h2 ((split_count hs).2 htl)
      rw [(split_count hs).1 hnot] at hl
      simp only [List.getLast?_singleton, Option.some.injEq] at hl
      subst hl
      obtain ⟨h3, h4⟩ := sub_uint32_step RS hRS hmax r ht
      show RS.toNat / 10 < sub_uint32 r.«end» (to_uint32 ((r.begin : Int) + RS))
      rw [h3]
      omega

/-! ## Bounds, frame and tail of one call of `add_region` -/

/-- C15, as stated, fails: for `REGION_SIZE = 9000000000000000000` the `long` sum
`REGION_SIZE + REGION_SIZE / 10` overflows to a negative value. For the request
`chr1:100-200` on the contig of length 1,000,000 the first piece is `[100, 3800301668)`,
which ends beyond the contig, and the call never returns. -/
theorem add_region_leaves_contig_for_huge_region_size :
    example_contigs (example_parse "chr1:100-200").chr = some 1000000 ∧
      too_large 9000000000000000000
        (clamp_to_contig 1000000 (example_parse "chr1:100-200")) ∧
      to_uint32 (((clamp_to_contig 1000000 (example_parse "chr1:100-200")).begin : Int) +
        9000000000000000000) = 3800301668 ∧
      ¬ (3800301668 ≤ 1000000) ∧
      ∀ fuel : Nat, add_region example_parse fuel example_contigs [] "chr1:100-200"
        9000000000000000000 = none :=
  ⟨by decide, by decide, by decide, by decide,
    add_region_never_ends example_parse example_contigs [] "chr1:100-200"
      9000000000000000000 1000000 (by decide) (by decide)⟩

/-- C15, amended: for a request with `begin <= end` on a known contig of length `L`,
`1 <= L < 2^32`, and `REGION_SIZE >= 1` with
`REGION_SIZE + REGION_SIZE / 10 <= 2^63 - 1`, `add_region` returns and every region `r` it
appends has `r.begin <= r.end`, `r.begin <= L - 1` and `r.end <= L`. -/
theorem add_region_inside_contig (parse : String → GenomicRegion) (fuel : Nat)
    (contig2length : String → Option Int) (regions : List GenomicRegion)
    (region_str : String) (REGION_SIZE L : Nat)
    (hle : (parse region_str).begin ≤ (parse region_str).«end»)
    (hknown : contig2length (parse region_str).chr = some (L : Int))
    (hL1 : 1 ≤ L) (hL2 : L < 2 ^ 32) (hRS : 1 ≤ REGION_SIZE)
    (hmax : REGION_SIZE + REGION_SIZE / 10 ≤ 9223372036854775807)
    (hfuel : (min (parse region_str).«end» L - min (parse region_str).begin (L - 1)) /
      REGION_SIZE ≤ fuel) :
    ∃ app, add_region parse fuel contig2length regions region_str (REGION_SIZE : Int) =
        some (regions ++ app) ∧
      ∀ r ∈ app, r.begin ≤ r.«end» ∧ r.begin ≤ L - 1 ∧ r.«end» ≤ L := by
  have hL2 : L < 4294967296 := by omega
  obtain ⟨hc, hcle, hclt, hclen⟩ := clamp_in_range L hL1 hL2 (parse region_str) hle
  have hRS1 : (1 : Int) ≤ (REGION_SIZE : Int) := by omega
  have hmax1 : (REGION_SIZE : Int) + (REGION_SIZE : Int) / 10 ≤ 9223372036854775807 := by omega
  obtain ⟨app, happ, hs⟩ := add_region_loop_split (REGION_SIZE : Int) hRS1 hmax1 fuel
    (clamp_to_contig (L : Int) (parse region_str)) regions
    (by rw [hclen, Int.toNat_ofNat]; exact hfuel)
  have hw := split_within hs hRS1 hmax1 hcle hclt
  have hb := split_begin_lt hs hRS1 hmax1 hcle hclt
  rw [hc] at hw hb
  refine ⟨app, ?_, ?_⟩
  · simp only [add_region, hknown]
    exact happ
  · intro r hr
    obtain ⟨_, h1, h2, h3⟩ := hw r hr
    have h4 := hb r hr
    simp only at h1 h3 h4
    omega

/-- The three regions of the request `chr1:1000-121000` lie inside `chr1`. -/
theorem add_region_inside_contig_example :
    ∃ app, add_region example_parse 2 example_contigs [] "chr1:1000-121000"
          ((50000 : Nat) : Int) = some ([] ++ app) ∧
      ∀ r ∈ app, r.begin ≤ r.«end» ∧ r.begin ≤ 1000000 - 1 ∧ r.«end» ≤ 1000000 :=
  add_region_inside_contig example_parse 2 example_contigs [] "chr1:1000-121000" 50000
    1000000 (by decide) (by decide) (by decide) (by decide) (by decide) (by decide)
    (by decide)

/-- C16: a request on a contig that is not a key of `contig2length` leaves the region
list as it was; whenever `add_region` returns, the list before the call is a prefix of
the list after the call; and for a known contig and `REGION_SIZE >= 1` with
`REGION_SIZE + REGION_SIZE / 10 <= 2^63 - 1` it does return, with at least one region
appended after the old list. -/
theorem add_region_frame (parse : String → GenomicRegion) (fuel : Nat)
    (contig2length : String → Option Int) (regions : List GenomicRegion)
    (region_str : String) (REGION_SIZE : Int) :
    (contig2length (parse region_str).chr = none →
        add_region parse fuel contig2length regions region_str REGION_SIZE = some regions) ∧
      (∀ out, add_region parse fuel contig2length regions region_str REGION_SIZE = some out →
        regions <+: out) ∧
      (∀ L, contig2length (parse region_str).chr = some L → 1 ≤ REGION_SIZE →
        REGION_SIZE + REGION_SIZE / 10 ≤ 9223372036854775807 →
        sub_uint32 (clamp_to_contig L (parse region_str)).«end»
            (clamp_to_contig L (parse region_str)).begin / REGION_SIZE.toNat ≤ fuel →
        ∃ app, add_region parse fuel contig2length regions region_str REGION_SIZE =
            some (regions ++ app) ∧ app ≠ []) := by
  refine ⟨?_, ?_, ?_⟩
  · intro h
    simp only [add_region, h]
  · intro out h
    unfold add_region at h
    simp only at h
    split at h
    · cases h
      exact List.prefix_refl _
    · exact add_region_loop_extends REGION_SIZE fuel _ regions out h
  · intro L hL hRS hmax hfuel
    obtain ⟨app, happ, hs⟩ := add_region_loop_split REGION_SIZE hRS hmax fuel
      (clamp_to_contig L (parse region_str)) regions hfuel
    refine ⟨app, ?_, split_ne_nil hs⟩
    simp only [add_region, hL]
    exact happ

/-- C17, as stated, fails: for `REGION_SIZE = 9000000000000000000` the `long` sum
`REGION_SIZE + REGION_SIZE / 10` overflows to a negative value. For the request
`chr1:0-100` the call appends piece after piece and never returns, so no region is the
last one; each piece has the 32-bit length `3800301568`, which is below
`REGION_SIZE / 10 = 900000000000000000`. -/
theorem add_region_no_tail_for_huge_region_size :
    too_large 9000000000000000000 ⟨"chr1", 0, 100⟩ ∧
      too_large 9000000000000000000 ⟨"chr1", 3800301568, 100⟩ ∧
      sub_uint32 (to_uint32 ((0 : Int) + 9000000000000000000)) 0 = 3800301568 ∧
      ¬ ((9000000000000000000 : Int) / 10 < 3800301568) ∧
      ∀ fuel : Nat, add_region (fun _ => ⟨"chr1", 0, 100⟩) fuel (fun _ => some 1000000) []
        "chr1:1-100" 9000000000000000000 = none :=
  ⟨by decide, by decide, by decide, by decide,
    add_region_never_ends (fun _ => ⟨"chr1", 0, 100⟩) (fun _ => some 1000000) []
      "chr1:1-100" 9000000000000000000 1000000 (by decide) rfl⟩

/-- C17, amended: for a request with `begin <= end` on a known contig and
`REGION_SIZE >= 1` with `REGION_SIZE + REGION_SIZE / 10 <= 2^63 - 1`,
`add_region` returns, and when it appends two or more regions the last one has a length
`end - begin`, as the 32-bit difference that the loop tests, greater than
`REGION_SIZE / 10`. For a contig length `1 <= L < 2^32` the last region has
`begin <= end` and that difference is its length. -/
theorem add_region_tail_length (parse : String → GenomicRegion) (fuel : Nat)
    (contig2length : String → Option Int) (regions : List GenomicRegion)
    (region_str : String) (REGION_SIZE : Nat) (L : Int)
    (hle : (parse region_str).begin ≤ (parse region_str).«end»)
    (hknown : contig2length (parse region_str).chr = some L)
    (hRS : 1 ≤ REGION_SIZE)
    (hmax : REGION_SIZE + REGION_SIZE / 10 ≤ 9223372036854775807)
    (hfuel : sub_uint32 (clamp_to_contig L (parse region_str)).«end»
      (clamp_to_contig L (parse region_str)).begin / REGION_SIZE ≤ fuel) :
    ∃ app, add_region parse fuel contig2length regions region_str (REGION_SIZE : Int) =
        some (regions ++ app) ∧
      (2 ≤ app.length →
        ∃ last, app.getLast? = some last ∧
          REGION_SIZE / 10 < sub_uint32 last.«end» last.begin ∧
          (1 ≤ L → L < 4294967296 →
            last.begin ≤ last.«end» ∧ REGION_SIZE / 10 < last.«end» - last.begin)) := by
  have hRS1 : (1 : Int) ≤ (REGION_SIZE : Int) := by omega
  have hmax1 : (REGION_SIZE : Int) + (REGION_SIZE : Int) / 10 ≤ 9223372036854775807 := by omega
  obtain ⟨app, happ, hs⟩ := add_region_loop_split (REGION_SIZE : Int) hRS1 hmax1 fuel
    (clamp_to_contig L (parse region_str)) regions
    (by rw [Int.toNat_ofNat]; exact hfuel)
  refine ⟨app, ?_, ?_⟩
  · simp only [add_region, hknown]
    exact happ
  · intro h2
    obtain ⟨l, hl, _⟩ := split_last hs
    have ht := split_tail hs hRS1 hmax1 h2 l hl
    rw [Int.toNat_ofNat] at ht
    refine ⟨l, hl, ht, ?_⟩
    intro hL1 hL2
    obtain ⟨n, rfl⟩ := Int.eq_ofNat_of_zero_le (by omega : 0 ≤ L)
    obtain ⟨_, hcle, hclt, _⟩ := clamp_in_range n (by omega) (by omega) (parse region_str) hle
    obtain ⟨_, _, h3, h4⟩ := split_within hs hRS1 hmax1 hcle hclt l (List.mem_of_mem_getLast? hl)
    refine ⟨h3, ?_⟩
    have h5 : sub_uint32 l.«end» l.begin = l.«end» - l.begin := by
      unfold sub_uint32 to_uint32
      omega
    rw [← h5]
    exact ht

/-- The request `chr1:1000-121000` is split in three, and its last region, of length
20,000, is longer than `50000 / 10`. -/
theorem add_region_tail_length_example :
    add_region example_parse 2 example_contigs [] "chr1:1000-121000" 50000 =
        some [⟨"chr1", 1000, 51000⟩, ⟨"chr1", 51000, 101000⟩, ⟨"chr1", 101000, 121000⟩] ∧
      ∃ app, add_region example_parse 2 example_contigs [] "chr1:1000-121000"
            ((50000 : Nat) : Int) = some ([] ++ app) ∧
        (2 ≤ app.length →
          ∃ last, app.getLast? = some last ∧
            50000 / 10 < sub_uint32 last.«end» last.begin ∧
            ((1 : Int) ≤ 1000000 → (1000000 : Int) < 4294967296 →
              last.begin ≤ last.«end» ∧ 50000 / 10 < last.«end» - last.begin)) :=
  ⟨by decide,
    add_region_tail_length example_parse 2 example_contigs [] "chr1:1000-121000" 50000
      1000000 (by decide) (by decide) (by decide) (by decide) (by decide)⟩

/-! ## Termination of the loop of `add_region` -/

/-- C18, as stated, fails, in two ways. For the request with `begin = 295000000` and
`end = 290000000` on a contig of length 300,000,000 and `REGION_SIZE = 1000000000`, the
fourth iteration starts with `begin = 3295000000`; `begin + REGION_SIZE` is not below
`end`, it is `2^32 + 32704`, and the 32-bit assignment to `new_region.end` wraps to
32704. And for `REGION_SIZE = 9000000000000000000` the `long` sum
`REGION_SIZE + REGION_SIZE / 10` overflows to a negative value, and the loop does not
end, whatever the region. -/
theorem add_region_piece_wraps :
    add_region (fun _ => ⟨"chr1", 295000000, 290000000⟩) 4 (fun _ => some 300000000) []
        "chr1:295000001-290000000" 1000000000 =
        some [⟨"chr1", 295000000, 1295000000⟩, ⟨"chr1", 1295000000, 2295000000⟩,
          ⟨"chr1", 2295000000, 3295000000⟩, ⟨"chr1", 3295000000, 32704⟩,
          ⟨"chr1", 32704, 290000000⟩] ∧
      too_large 1000000000 ⟨"chr1", 3295000000, 290000000⟩ ∧
      ¬ (3295000000 + 1000000000 < 290000000) ∧
      to_uint32 (3295000000 + 1000000000) = 32704 ∧
      to_uint32 (3295000000 + 1000000000) ≠ 3295000000 + 1000000000 ∧
      ∀ (fuel : Nat) (region : GenomicRegion) (regions : List GenomicRegion),
        add_region_loop 9000000000000000000 fuel region regions = none :=
  ⟨by decide, by decide, by decide, by decide, by decide,
    add_region_loop_never_ends 9000000000000000000 (by decide)⟩

/-- C18, amended: for every `REGION_SIZE >= 1` with
`REGION_SIZE + REGION_SIZE / 10 <= 2^63 - 1` and every region on entry, with
`end - begin` computed modulo `2^32`, the loop of `add_region` ends within
`(end - begin) / REGION_SIZE` iterations, and so does every call of `add_region` within
`2^32` iterations; each iteration reduces `end - begin` by exactly `REGION_SIZE`; and in
an iteration that starts with `begin <= end`, `begin + REGION_SIZE` is below `end` and
the 32-bit assignment to `new_region.end` does not wrap. -/
theorem add_region_loop_terminates (REGION_SIZE : Nat) (hRS : 1 ≤ REGION_SIZE)
    (hmax : REGION_SIZE + REGION_SIZE / 10 ≤ 9223372036854775807)
    (region : GenomicRegion) (regions : List GenomicRegion) :
    (∃ app, add_region_loop (REGION_SIZE : Int)
        (sub_uint32 region.«end» region.begin / REGION_SIZE) region regions =
          some (regions ++ app)) ∧
      (∀ (parse : String → GenomicRegion) (contig2length : String → Option Int)
          (region_str : String),
        ∃ out, add_region parse 4294967296 contig2length regions region_str
          (REGION_SIZE : Int) = some out) ∧
      (too_large (REGION_SIZE : Int) region →
        sub_uint32 region.«end» (to_uint32 ((region.begin : Int) + REGION_SIZE)) +
          REGION_SIZE = sub_uint32 region.«end» region.begin) ∧
      (too_large (REGION_SIZE : Int) region → region.begin ≤ region.«end» →
        region.«end» < 4294967296 →
          region.begin + REGION_SIZE < region.«end» ∧
            to_uint32 ((region.begin : Int) + REGION_SIZE) = region.begin + REGION_SIZE) := by
  have hRS1 : (1 : Int) ≤ (REGION_SIZE : Int) := by omega
  have hmax1 : (REGION_SIZE : Int) + (REGION_SIZE : Int) / 10 ≤ 9223372036854775807 := by omega
  refine ⟨?_, ?_, ?_, ?_⟩
  · obtain ⟨app, happ, _⟩ := add_region_loop_split (REGION_SIZE : Int) hRS1 hmax1
      (sub_uint32 region.«end» region.begin / REGION_SIZE) region regions
      (by rw [Int.toNat_ofNat])
    exact ⟨app, happ⟩
  · intro parse contig2length region_str
    cases hk : contig2length (parse region_str).chr with
    | none => exact ⟨regions, by simp only [add_region, hk]⟩
    | some L =>
      have hlt : sub_uint32 (clamp_to_contig L (parse region_str)).«end»
          (clamp_to_contig L (parse region_str)).begin < 4294967296 := by
        unfold sub_uint32 to_uint32
        omega
      obtain ⟨app, happ, _⟩ := add_region_loop_split (REGION_SIZE : Int) hRS1 hmax1 4294967296
        (clamp_to_contig L (parse region_str)) regions
        (by
          rw [Int.toNat_ofNat]
          exact Nat.le_trans (Nat.div_le_self _ _) (Nat.le_of_lt hlt))
      exact ⟨regions ++ app, by simp only [add_region, hk]; exact happ⟩
  · intro ht
    obtain ⟨h1, h2⟩ := sub_uint32_step (REGION_SIZE : Int) hRS1 hmax1 region ht
    rw [h1]
    rw [Int.toNat_ofNat] at h2 ⊢
    omega
  · intro ht hle hlt
    obtain ⟨h1, h2⟩ := step_no_wrap (REGION_SIZE : Int) hRS1 hmax1 region hle hlt ht
    rw [Int.toNat_ofNat] at h1 h2
    exact ⟨h2, h1⟩

/-- The loop on the clamped request `chr1:1000-121000`, of length 120,000, with
`REGION_SIZE = 50000` ends within `120000 / 50000 = 2` iterations. -/
theorem add_region_loop_terminates_example :
    sub_uint32 121000 1000 / 50000 = 2 ∧
      add_region_loop 50000 2 ⟨"chr1", 1000, 121000⟩ [] =
        some [⟨"chr1", 1000, 51000⟩, ⟨"chr1", 51000, 101000⟩, ⟨"chr1", 101000, 121000⟩] ∧
      add_region_loop 50000 1 ⟨"chr1", 1000, 121000⟩ [] = none ∧
      ∃ app, add_region_loop ((50000 : Nat) : Int)
        (sub_uint32 (GenomicRegion.mk "chr1" 1000 121000).«end»
          (GenomicRegion.mk "chr1" 1000 121000).begin / 50000)
        ⟨"chr1", 1000, 121000⟩ [] = some ([] ++ app) :=
  ⟨by decide, by decide, by decide,
    (add_region_loop_terminates 50000 (by decide) (by decide) ⟨"chr1", 1000, 121000⟩ []).1⟩

/-! ## When `get_regions` exits -/

theorem add_regions_of_lines_total (parse : String → GenomicRegion) (fuel : Nat)
    (contig2length : String → Option Int) (REGION_SIZE : Nat) (hRS : 1 ≤ REGION_SIZE)
    (hmax : REGION_SIZE + REGION_SIZE / 10 ≤ 9223372036854775807) :
    ∀ (lines : List String) (regions : List GenomicRegion),
      (∀ s ∈ lines, ∀ L ∈ contig2length (parse s).chr,
        sub_uint32 (clamp_to_contig L (parse s)).«end» (clamp_to_contig L (parse s)).begin /
          REGION_SIZE ≤ fuel) →
      ∃ out, add_regions_of_lines parse fuel contig2length (REGION_SIZE : Int) lines regions =
          some (regions ++ out) ∧
        (out = [] ↔ ∀ s ∈ lines, contig2length (parse s).chr = none)
  | [], regions, _ => ⟨[], by simp [add_regions_of_lines], by simp⟩
  | s :: rest, regions, hfuel => by
    have hfuel1 : ∀ t ∈ rest, ∀ L ∈ contig2length (parse t).chr,
        sub_uint32 (clamp_to_contig L (parse t)).«end» (clamp_to_contig L (parse t)).begin /
          REGION_SIZE ≤ fuel :=
      fun t ht => hfuel t (List.mem_cons_of_mem s ht)
    cases hk : contig2length (parse s).chr with
    | none =>
      obtain ⟨out, hout, hiff⟩ := add_regions_of_lines_total parse fuel contig2length
        REGION_SIZE hRS hmax rest regions hfuel1
      refine ⟨out, ?_, ?_⟩
      · simp only [add_regions_of_lines, add_region, hk]
        exact hout
      · rw [hiff]
        simp [hk]
    | some L =>
      have hRS1 : (1 : Int) ≤ (REGION_SIZE : Int) := by omega
      have hmax1 : (REGION_SIZE : Int) + (REGION_SIZE : Int) / 10 ≤ 9223372036854775807 := by
        omega
      obtain ⟨app, happ, hs⟩ := add_region_loop_split (REGION_SIZE : Int) hRS1 hmax1 fuel
        (clamp_to_contig L (parse s)) regions
        (by rw [Int.toNat_ofNat]; exact hfuel s (List.mem_cons_self s rest) L hk)
      obtain ⟨out, hout, _⟩ := add_regions_of_lines_total parse fuel contig2length
        REGION_SIZE hRS hmax rest (regions ++ app) hfuel1
      refine ⟨app ++ out, ?_, ?_⟩
      · simp only [add_regions_of_lines, add_region, hk, happ]
        rw [hout, List.append_assoc]
      · constructor
        · intro h
          exact absurd (List.append_eq_nil.1 h).1 (split_ne_nil hs)
        · intro h
          have := h s (List.mem_cons_self s rest)
          rw [hk] at this
          cases this

theorem add_region_loop_appends (RS : Int) :
    ∀ (fuel : Nat) (r : GenomicRegion) (regions out : List GenomicRegion),
      add_region_loop RS fuel r regions = some out → ∃ app, out = regions ++ app ∧ app ≠ []
  | 0, r, regions, out, h => by
    unfold add_region_loop at h
    split at h
    · cases h
    · cases h
      exact ⟨[r], rfl, by simp⟩
  | fuel + 1, r, regions, out, h => by
    unfold add_region_loop at h
    split at h
    · obtain ⟨app, happ, _⟩ := add_region_loop_appends RS fuel _ _ out h
      exact ⟨_ :: app, by rw [happ, List.append_assoc, List.singleton_append], by simp⟩
    · cases h
      exact ⟨[r], rfl, by simp⟩

theorem add_regions_of_lines_appends (parse : String → GenomicRegion) (fuel : Nat)
    (contig2length : String → Option Int) (RS : Int) :
    ∀ (lines : List String) (regions out : List GenomicRegion),
      add_regions_of_lines parse fuel contig2length RS lines regions = some out →
      ∃ app, out = regions ++ app ∧
        (app = [] ↔ ∀ s ∈ lines, contig2length (parse s).chr = none)
  | [], regions, out, h => by
    simp only [add_regions_of_lines, Option.some.injEq] at h
    exact ⟨[], by rw [← h, List.append_nil], by simp⟩
  | s :: rest, regions, out, h => by
    unfold add_regions_of_lines at h
    cases hk : contig2length (parse s).chr with
    | none =>
      simp only [add_region, hk] at h
      obtain ⟨app, happ, hiff⟩ := add_regions_of_lines_appends parse fuel contig2length RS
        rest regions out h
      refine ⟨app, happ, ?_⟩
      rw [hiff]
      simp [hk]
    | some L =>
      simp only [add_region, hk] at h
      cases h1 : add_region_loop RS fuel (clamp_to_contig L (parse s)) regions with
      | none =>
        rw [h1] at h
        cases h
      | some regions1 =>
        rw [h1] at h
        obtain ⟨app1, happ1, hne⟩ := add_region_loop_appends RS fuel _ regions regions1 h1
        obtain ⟨app2, happ2, _⟩ := add_regions_of_lines_appends parse fuel contig2length RS
          rest regions1 out h
        refine ⟨app1 ++ app2, by rw [happ2, happ1, List.append_assoc], ?_⟩
        constructor
        · intro hnil
          exact absurd (List.append_eq_nil.1 hnil).1 hne
        · intro hall
          have hs := hall s (List.mem_cons_self s rest)
          rw [hk] at hs
          cases hs

theorem add_regions_of_lines_unknown (parse : String → GenomicRegion) (fuel : Nat)
    (contig2length : String → Option Int) (RS : Int) :
    ∀ (lines : List String) (regions : List GenomicRegion),
      (∀ s ∈ lines, contig2length (parse s).chr = none) →
      add_regions_of_lines parse fuel contig2length RS lines regions = some regions
  | [], regions, _ => rfl
  | s :: rest, regions, h => by
    have hk := h s (List.mem_cons_self s rest)
    simp only [add_regions_of_lines, add_region, hk]
    exact add_regions_of_lines_unknown parse fuel contig2length RS rest regions
      (fun t ht => h t (List.mem_cons_of_mem s ht))

/-- C14: `get_regions` exits, with status 1, exactly when the region list is empty after
all requests were processed, which is exactly when every request names a contig that is
not in the reference index, in particular when there is no request at all; and a list
that it returns is not empty. This holds for every `REGION_SIZE`. That `get_regions`
ends is shown for `REGION_SIZE >= 1` with `REGION_SIZE + REGION_SIZE / 10 <= 2^63 - 1`. -/
theorem get_regions_exits_iff (parse : String → GenomicRegion) (fuel : Nat)
    (contig2length : String → Option Int) (opts_region opts_region_fn : String)
    (file_lines : List String) (REGION_SIZE : Int) :
    ((∀ s ∈ requests opts_region opts_region_fn file_lines,
          contig2length (parse s).chr = none) →
        get_regions parse fuel contig2length opts_region opts_region_fn file_lines
          REGION_SIZE = some (Outcome.exited 1)) ∧
      (requests opts_region opts_region_fn file_lines = [] →
        get_regions parse fuel contig2length opts_region opts_region_fn file_lines
          REGION_SIZE = some (Outcome.exited 1)) ∧
      (∀ out, get_regions parse fuel contig2length opts_region opts_region_fn file_lines
          REGION_SIZE = some out →
        ∃ regions,
          add_regions_of_lines parse fuel contig2length REGION_SIZE
              (requests opts_region opts_region_fn file_lines) [] = some regions ∧
            (out = Outcome.exited 1 ↔ regions = []) ∧
            (out = Outcome.exited 1 ↔
              ∀ s ∈ requests opts_region opts_region_fn file_lines,
                contig2length (parse s).chr = none) ∧
            (out ≠ Outcome.exited 1 → out = Outcome.returned regions ∧ regions ≠ [])) ∧
      (1 ≤ REGION_SIZE → REGION_SIZE + REGION_SIZE / 10 ≤ 9223372036854775807 →
        (∀ s ∈ requests opts_region opts_region_fn file_lines,
          ∀ L ∈ contig2length (parse s).chr,
            sub_uint32 (clamp_to_contig L (parse s)).«end»
                (clamp_to_contig L (parse s)).begin / REGION_SIZE.toNat ≤ fuel) →
        ∃ out, get_regions parse fuel contig2length opts_region opts_region_fn file_lines
          REGION_SIZE = some out) := by
  have hunknown : (∀ s ∈ requests opts_region opts_region_fn file_lines,
        contig2length (parse s).chr = none) →
      get_regions parse fuel contig2length opts_region opts_region_fn file_lines
        REGION_SIZE = some (Outcome.exited 1) := by
    intro hall
    rw [get_regions_eq, add_regions_of_lines_unknown parse fuel contig2length REGION_SIZE
      _ [] hall]
    rfl
  refine ⟨hunknown, ?_, ?_, ?_⟩
  · intro hnil
    apply hunknown
    rw [hnil]
    intro s hs
    cases hs
  · intro out hout
    rw [get_regions_eq] at hout
    cases hreg : add_regions_of_lines parse fuel contig2length REGION_SIZE
        (requests opts_region opts_region_fn file_lines) [] with
    | none =>
      rw [hreg] at hout
      cases hout
    | some regions =>
      rw [hreg] at hout
      obtain ⟨app, happ, hiff⟩ := add_regions_of_lines_appends parse fuel contig2length
        REGION_SIZE _ [] regions hreg
      rw [List.nil_append] at happ
      subst happ
      refine ⟨regions, rfl, ?_⟩
      by_cases hnil : regions = []
      · have ho : out = Outcome.exited 1 := by
          simp only [hnil, List.length_nil, if_true, Option.some.injEq] at hout
          exact hout.symm
        refine ⟨by simp [ho, hnil], ?_, fun h => absurd ho h⟩
        simp only [ho, true_iff]
        exact hiff.1 hnil
      · have hlen : regions.length ≠ 0 := fun h => hnil (List.length_eq_zero.1 h)
        have ho : out = Outcome.returned regions := by
          simp only [hlen, if_false, Option.some.injEq] at hout
          exact hout.symm
        refine ⟨by simp [ho, hnil], ?_, fun _ => ⟨ho, hnil⟩⟩
        rw [ho]
        constructor
        · intro h
          cases h
        · intro h
          exact absurd (hiff.2 h) hnil
  · intro hRS hmax hfuel
    obtain ⟨n, rfl⟩ := Int.eq_ofNat_of_zero_le (by omega : 0 ≤ REGION_SIZE)
    rw [Int.toNat_ofNat] at hfuel
    obtain ⟨regions, hreg, _⟩ := add_regions_of_lines_total parse fuel contig2length
      n (by omega) (by omega) (requests opts_region opts_region_fn file_lines) [] hfuel
    rw [get_regions_eq, hreg]
    simp only [List.nil_append]
    split
    · exact ⟨_, rfl⟩
    · exact ⟨_, rfl⟩

/-- Without `--region` and `--region_file`, and with a request on the unknown contig
`chrUn`, `get_regions` exits with status 1; with the request `chr1:0-100` it returns one
region. -/
theorem get_regions_exits_iff_example :
    get_regions example_parse 0 example_contigs "" "" [] 50000 = some (Outcome.exited 1) ∧
      get_regions example_parse 0 example_contigs "chrUn" "" [] 50000 =
        some (Outcome.exited 1) ∧
      get_regions example_parse 0 example_contigs "chr1:0-100" "" [] 50000 =
        some (Outcome.returned [⟨"chr1", 0, 100⟩]) ∧
      ∃ out, get_regions example_parse 0 example_contigs "chr1:0-100" "" [] 50000 =
        some out :=
  ⟨by decide, by decide, by decide,
    (get_regions_exits_iff example_parse 0 example_contigs "chr1:0-100" "" [] 50000).2.2.2
      (by decide) (by decide) (by decide)⟩

end gyper
